import Mathlib

/-!
Verification of the cluster-queue cache specification of this repository.

The repository ships the cache's test suite (`pkg/cache/cache_test.go`) and the
pure indexer functions (`pkg/util/indexer/indexer.go`); the cache implementation
itself is not part of the sources.  The cache data model and its operations are
therefore modelled from the specification (sections 3, 4.1-4.6), with the test
expectations pinning concrete behaviour.  Go maps are embedded as association
lists (first-match lookup), Go string sets as lists, and quantities as
fixed-point naturals, so every definition is executable and every concrete
statement decidable.
-/

set_option maxRecDepth 4000

namespace KueueCache

/-! ### Association-list maps (embedding of Go maps) -/

/-- First-match lookup in an association list, the embedding of Go map read. -/
def lookupA [DecidableEq α] : List (α × β) → α → Option β
  | [], _ => none
  | (k, v) :: t, a => if k = a then some v else lookupA t a

/-- Insert or replace (first occurrence, in place), the embedding of Go map write. -/
def insertA [DecidableEq α] : List (α × β) → α → β → List (α × β)
  | [], a, b => [(a, b)]
  | (k, v) :: t, a, b => if k = a then (k, b) :: t else (k, v) :: insertA t a b

/-- Remove every binding of a key, the embedding of Go map delete. -/
def eraseA [DecidableEq α] : List (α × β) → α → List (α × β)
  | [], _ => []
  | (k, v) :: t, a => if k = a then eraseA t a else (k, v) :: eraseA t a

/-- Apply a function to the value at the first binding of a key (no-op when absent). -/
def mapAt [DecidableEq α] : List (α × β) → α → (β → β) → List (α × β)
  | [], _, _ => []
  | (k, v) :: t, a, f => if k = a then (k, f v) :: t else (k, v) :: mapAt t a f

/-- Apply a function to every value, keys untouched. -/
def mapVal (l : List (α × β)) (f : β → β) : List (α × β) :=
  l.map (fun p => (p.1, f p.2))

/-- Insert into a set embedded as a duplicate-free list. -/
def insertS [DecidableEq α] (l : List α) (a : α) : List α :=
  if a ∈ l then l else a :: l

/-- Remove every occurrence of an element from a list-embedded set. -/
def removeS [DecidableEq α] : List α → α → List α
  | [], _ => []
  | x :: t, a => if x = a then removeS t a else x :: removeS t a

section AssocLemmas

variable {α β : Type} [DecidableEq α]

@[simp] theorem lookupA_nil (a : α) : lookupA ([] : List (α × β)) a = none := rfl

@[simp] theorem lookupA_insertA_self (l : List (α × β)) (a : α) (b : β) :
    lookupA (insertA l a b) a = some b := by
  induction l with
  | nil => simp [insertA, lookupA]
  | cons p t ih =>
    obtain ⟨k, v⟩ := p
    by_cases h : k = a <;> simp [insertA, lookupA, h, ih]

theorem lookupA_insertA_ne (l : List (α × β)) {a a' : α} (h : a' ≠ a) (b : β) :
    lookupA (insertA l a b) a' = lookupA l a' := by
  induction l with
  | nil => simp [insertA, lookupA, Ne.symm h]
  | cons p t ih =>
    obtain ⟨k, v⟩ := p
    by_cases hk : k = a
    · subst hk
      simp [insertA, lookupA, Ne.symm h]
    · simp [insertA, lookupA, hk, ih]

@[simp] theorem lookupA_eraseA_self (l : List (α × β)) (a : α) :
    lookupA (eraseA l a) a = none := by
  induction l with
  | nil => simp [eraseA]
  | cons p t ih =>
    obtain ⟨k, v⟩ := p
    by_cases h : k = a <;> simp [eraseA, lookupA, h, ih]

theorem lookupA_eraseA_ne (l : List (α × β)) {a a' : α} (h : a' ≠ a) :
    lookupA (eraseA l a) a' = lookupA l a' := by
  induction l with
  | nil => simp [eraseA]
  | cons p t ih =>
    obtain ⟨k, v⟩ := p
    by_cases hk : k = a
    · subst hk
      simp [eraseA, lookupA, Ne.symm h, ih]
    · simp [eraseA, lookupA, hk, ih]

theorem eraseA_insertA (l : List (α × β)) (a : α) (b : β) :
    eraseA (insertA l a b) a = eraseA l a := by
  induction l with
  | nil => simp [insertA, eraseA]
  | cons p t ih =>
    obtain ⟨k, v⟩ := p
    by_cases h : k = a <;> simp [insertA, eraseA, h, ih]

theorem eraseA_of_lookupA_none (l : List (α × β)) (a : α) (h : lookupA l a = none) :
    eraseA l a = l := by
  induction l with
  | nil => simp [eraseA]
  | cons p t ih =>
    obtain ⟨k, v⟩ := p
    by_cases hk : k = a
    · simp [lookupA, hk] at h
    · simp [lookupA, hk] at h
      simp [eraseA, hk, ih h]

theorem insertA_lookupA_self (l : List (α × β)) (a : α) (b : β)
    (h : lookupA l a = some b) : insertA l a b = l := by
  induction l with
  | nil => simp [lookupA] at h
  | cons p t ih =>
    obtain ⟨k, v⟩ := p
    by_cases hk : k = a
    · simp [lookupA, hk] at h
      simp [insertA, hk, h]
    · simp [lookupA, hk] at h
      simp [insertA, hk, ih h]

theorem insertA_insertA_same (l : List (α × β)) (a : α) (b1 b2 : β) :
    insertA (insertA l a b1) a b2 = insertA l a b2 := by
  induction l with
  | nil => simp [insertA]
  | cons p t ih =>
    obtain ⟨k, v⟩ := p
    by_cases h : k = a <;> simp [insertA, h, ih]

@[simp] theorem lookupA_mapAt_self (l : List (α × β)) (a : α) (f : β → β) :
    lookupA (mapAt l a f) a = (lookupA l a).map f := by
  induction l with
  | nil => simp [mapAt]
  | cons p t ih =>
    obtain ⟨k, v⟩ := p
    by_cases h : k = a <;> simp [mapAt, lookupA, h, ih]

theorem lookupA_mapAt_ne (l : List (α × β)) {a a' : α} (h : a' ≠ a) (f : β → β) :
    lookupA (mapAt l a f) a' = lookupA l a' := by
  induction l with
  | nil => simp [mapAt]
  | cons p t ih =>
    obtain ⟨k, v⟩ := p
    by_cases hk : k = a
    · subst hk
      simp [mapAt, lookupA, Ne.symm h]
    · simp [mapAt, lookupA, hk, ih]

theorem mapAt_mapAt (l : List (α × β)) (a : α) (f g : β → β) :
    mapAt (mapAt l a f) a g = mapAt l a (fun v => g (f v)) := by
  induction l with
  | nil => simp [mapAt]
  | cons p t ih =>
    obtain ⟨k, v⟩ := p
    by_cases h : k = a <;> simp [mapAt, h, ih]

theorem mapAt_of_lookupA_none (l : List (α × β)) (a : α) (f : β → β)
    (h : lookupA l a = none) : mapAt l a f = l := by
  induction l with
  | nil => simp [mapAt]
  | cons p t ih =>
    obtain ⟨k, v⟩ := p
    by_cases hk : k = a
    · simp [lookupA, hk] at h
    · simp [lookupA, hk] at h
      simp [mapAt, hk, ih h]

theorem mapAt_id_of (l : List (α × β)) (a : α) (f : β → β) (b : β)
    (h : lookupA l a = some b) (hf : f b = b) : mapAt l a f = l := by
  induction l with
  | nil => simp [lookupA] at h
  | cons p t ih =>
    obtain ⟨k, v⟩ := p
    by_cases hk : k = a
    · simp [lookupA, hk] at h
      simp [mapAt, hk, h, hf]
    · simp [lookupA, hk] at h
      simp [mapAt, hk, ih h]

theorem mapAt_insertA_self (l : List (α × β)) (a : α) (b : β) (f : β → β) :
    mapAt (insertA l a b) a f = insertA l a (f b) := by
  induction l with
  | nil => simp [insertA, mapAt]
  | cons p t ih =>
    obtain ⟨k, v⟩ := p
    by_cases h : k = a <;> simp [insertA, mapAt, h, ih]

theorem lookupA_mapVal (l : List (α × β)) (f : β → β) (a : α) :
    lookupA (mapVal l f) a = (lookupA l a).map f := by
  induction l with
  | nil => simp [mapVal, lookupA]
  | cons p t ih =>
    obtain ⟨k, v⟩ := p
    by_cases h : k = a
    · simp [mapVal, lookupA, h]
    · simp only [mapVal, lookupA, List.map_cons, if_neg h] at ih ⊢
      simpa using ih

@[simp] theorem mem_insertS (l : List α) (a b : α) :
    b ∈ insertS l a ↔ b = a ∨ b ∈ l := by
  unfold insertS
  by_cases h : a ∈ l
  · simp only [if_pos h]
    constructor
    · exact Or.inr
    · rintro (rfl | hb)
      · exact h
      · exact hb
  · simp [if_neg h]

@[simp] theorem mem_removeS (l : List α) (a b : α) :
    b ∈ removeS l a ↔ b ∈ l ∧ b ≠ a := by
  induction l with
  | nil => simp [removeS]
  | cons x t ih =>
    by_cases h : x = a
    · simp only [removeS, if_pos h, ih, List.mem_cons]
      subst h
      constructor
      · rintro ⟨hb, hba⟩
        exact ⟨Or.inr hb, hba⟩
      · rintro ⟨hx | hb, hba⟩
        · exact absurd hx hba
        · exact ⟨hb, hba⟩
    · simp only [removeS, if_neg h, List.mem_cons, ih]
      constructor
      · rintro (rfl | ⟨hb, hba⟩)
        · exact ⟨Or.inl rfl, h⟩
        · exact ⟨Or.inr hb, hba⟩
      · rintro ⟨hx | hb, hba⟩
        · exact Or.inl hx
        · exact Or.inr ⟨hb, hba⟩

theorem removeS_insertS (l : List α) (a : α) :
    removeS (insertS l a) a = removeS l a := by
  by_cases h : a ∈ l <;> simp [insertS, h, removeS]

theorem removeS_of_not_mem (l : List α) (a : α) (h : a ∉ l) :
    removeS l a = l := by
  induction l with
  | nil => simp [removeS]
  | cons x t ih =>
    simp only [List.mem_cons, not_or] at h
    have hxa : ¬ x = a := fun hc => h.1 hc.symm
    simp [removeS, hxa, ih h.2]

theorem eq_of_mem_of_removeS_nil (l : List α) (a : α) (h : removeS l a = [])
    (x : α) (hx : x ∈ l) : x = a := by
  by_cases hxa : x = a
  · exact hxa
  · have : x ∈ removeS l a := by simp [hx, hxa]
    rw [h] at this
    simp at this

end AssocLemmas

/-! ### Data model (spec section 3)

Modelled from the spec: the cache implementation (`pkg/cache/cache.go`) is not
among the sources, so the data model follows spec section 3 and the shapes the
test file (`pkg/cache/cache_test.go`) observes.  The namespace-selector and the
per-resource label-key sets are not modelled: no verified property reads them
and no modelled operation's behaviour on the modelled fields depends on them. -/

/-- A human-readable quantity before normalisation.  `value` is the literal
number and `milli` records whether the literal carried the milli suffix
(`"10m"`), the distinction spec section 4.1 normalises on. -/
structure Qty where
  value : Nat
  milli : Bool
deriving DecidableEq, Repr

/-- The fixed-point scale attached to a resource name (spec section 4.1). -/
inductive Scale where
  | milliScale
  | unitScale
deriving DecidableEq, Repr

/-- Modelled from the spec: the per-resource-name scaling table of section 4.1,
fixed at process start; unknown resource names default to integer units. -/
def scaleTable : List (String × Scale) :=
  [("cpu", Scale.milliScale)]

/-- Scale of a resource name, defaulting to integer units. -/
def scaleOf (r : String) : Scale :=
  (lookupA scaleTable r).getD Scale.unitScale

/-- Modelled from the spec: normalisation of section 4.1.  CPU-like quantities
convert to milli-units (multiply by 1000 if whole, preserve otherwise); other
resources convert to their base integer. -/
def normalise (r : String) (q : Qty) : Nat :=
  match scaleOf r with
  | Scale.milliScale => if q.milli then q.value else q.value * 1000
  | Scale.unitScale => q.value

/-- Quota declaration for one flavor: name, min and optional max, already in
the fixed-point scale (spec section 3, FlavorLimits). -/
structure FlavorLimits where
  name : String
  min : Nat
  max : Option Nat
deriving DecidableEq, Repr

/-- A resource flavor as registered in the flavor registry (spec section 3). -/
structure ResourceFlavor where
  name : String
  labels : List (String × String)
deriving DecidableEq, Repr

/-- One pod-set of a workload: a count and a per-resource request map. -/
structure PodSet where
  name : String
  count : Nat
  requests : List (String × Qty)
deriving DecidableEq, Repr

/-- The admitted flavor per resource for one pod-set. -/
structure PodSetFlavors where
  name : String
  flavors : List (String × String)
deriving DecidableEq, Repr

/-- The admission record binding a workload to a cluster-queue. -/
structure Admission where
  clusterQueue : String
  podSetFlavors : List PodSetFlavors
deriving DecidableEq, Repr

/-- A workload as the cache sees it: a key, pod-sets and an optional
admission record (spec section 3). -/
structure Workload where
  key : String
  podSets : List PodSet
  admission : Option Admission
deriving DecidableEq, Repr

/-- Readiness status of a cluster-queue (spec section 3). -/
inductive Status where
  | active
  | pending
deriving DecidableEq, Repr

/-- Per-resource, per-flavor usage counters; shape mirrors the quota table. -/
abbrev UsedMap : Type := List (String × List (String × Nat))

/-- Modelled from the spec: per-pool state of section 3 (ClusterQueue). -/
structure ClusterQueue where
  name : String
  cohortName : String
  requestableResources : List (String × List FlavorLimits)
  usedResources : UsedMap
  workloads : List (String × Workload)
  assumedWorkloads : List String
  status : Status
deriving DecidableEq, Repr

/-- A cohort: a named group of member cluster-queues (spec section 3). -/
structure Cohort where
  name : String
  members : List String
deriving DecidableEq, Repr

/-- Modelled from the spec: the top-level cache of section 4.5, holding the
flavor registry, the cluster-queue map, the cohort map and the global
assumed-workload index (workload key to owning cluster-queue name). -/
structure Cache where
  clusterQueues : List (String × ClusterQueue)
  cohorts : List (String × Cohort)
  resourceFlavors : List (String × ResourceFlavor)
  assumedWorkloads : List (String × String)
deriving DecidableEq, Repr

/-- The empty cache produced by `New`. -/
def emptyCache : Cache :=
  { clusterQueues := [], cohorts := [], resourceFlavors := [], assumedWorkloads := [] }

/-- The error kinds of spec section 7 that the modelled operations report. -/
inductive CacheError where
  | alreadyExists
  | clusterQueueNotFound
  | oldClusterQueueMissing
  | newClusterQueueMissing
  | workloadAlreadyExists
  | notAssumed
deriving DecidableEq, Repr

/-! ### Workload usage accounting (spec section 4.3 helpers) -/

/-- The flattened charge list of a workload: one `(resource, flavor, amount)`
triple per pod-set request that has an admitted flavor, with
`amount = normalise(request) * count` (spec section 4.3, AddWorkloadUsage). -/
def charges (w : Workload) : List (String × String × Nat) :=
  match w.admission with
  | none => []
  | some adm =>
    (w.podSets.map (fun ps =>
      match lookupA (adm.podSetFlavors.map (fun psf => (psf.name, psf))) ps.name with
      | none => []
      | some psf =>
        ps.requests.filterMap (fun rq =>
          match lookupA psf.flavors rq.1 with
          | none => none
          | some f => some (rq.1, f, normalise rq.1 rq.2 * ps.count)))).flatten

/-- Apply one charge: skip when the resource is untracked, insert the flavor
with the added amount when absent (spec section 4.3, AddWorkloadUsage). -/
def chargeStep (u : UsedMap) (c : String × String × Nat) : UsedMap :=
  match lookupA u c.1 with
  | none => u
  | some inner => insertA u c.1 (insertA inner c.2.1 ((lookupA inner c.2.1).getD 0 + c.2.2))

/-- Undo one charge: skip when the resource or the flavor is untracked,
otherwise subtract, saturating at zero (spec section 4.3,
RemoveWorkloadUsage). -/
def chargeUnstep (u : UsedMap) (c : String × String × Nat) : UsedMap :=
  match lookupA u c.1 with
  | none => u
  | some inner =>
    match lookupA inner c.2.1 with
    | none => u
    | some v => insertA u c.1 (insertA inner c.2.1 (v - c.2.2))

/-- Add a workload's usage to a used-resources table (spec section 4.3). -/
def addUsage (u : UsedMap) (w : Workload) : UsedMap :=
  (charges w).foldl chargeStep u

/-- Subtract a workload's usage from a used-resources table; charges are
undone in reverse order, as the inverse of `addUsage` (spec section 4.3). -/
def removeUsage (u : UsedMap) (w : Workload) : UsedMap :=
  (charges w).foldr (fun c acc => chargeUnstep acc c) u

/-- A charge list stays within the shape of a used-resources table when every
charge on a tracked resource names a flavor already present there. -/
def chargesOK (u : UsedMap) (ch : List (String × String × Nat)) : Bool :=
  ch.all (fun c =>
    match lookupA u c.1 with
    | none => true
    | some inner => (lookupA inner c.2.1).isSome)

theorem chargeStep_lookup_none (u : UsedMap) (c : String × String × Nat) (r : String)
    (h : lookupA u r = none) : lookupA (chargeStep u c) r = none := by
  unfold chargeStep
  match hc : lookupA u c.1 with
  | none => exact h
  | some inner =>
    have hne : r ≠ c.1 := fun he => by
      rw [he] at h
      rw [h] at hc
      exact Option.noConfusion hc
    rw [lookupA_insertA_ne _ hne]
    exact h

theorem chargeStep_lookup_isSome (u : UsedMap) (c : String × String × Nat)
    (r f : String) (inner : List (String × Nat))
    (h : lookupA u r = some inner) (hf : (lookupA inner f).isSome = true) :
    ∃ inner', lookupA (chargeStep u c) r = some inner' ∧ (lookupA inner' f).isSome = true := by
  unfold chargeStep
  match hc : lookupA u c.1 with
  | none => exact ⟨inner, h, hf⟩
  | some inner0 =>
    by_cases hr : r = c.1
    · subst hr
      rw [h] at hc
      cases hc
      refine ⟨_, lookupA_insertA_self .., ?_⟩
      by_cases hff : f = c.2.1
      · subst hff
        simp
      · rw [lookupA_insertA_ne _ hff]
        exact hf
    · rw [lookupA_insertA_ne _ hr]
      exact ⟨inner, h, hf⟩

theorem chargesOK_step (u : UsedMap) (c : String × String × Nat)
    (ch : List (String × String × Nat)) (h : chargesOK u ch = true) :
    chargesOK (chargeStep u c) ch = true := by
  simp only [chargesOK, List.all_eq_true] at h ⊢
  intro x hx
  have hx' := h x hx
  match hr : lookupA u x.1 with
  | none =>
    rw [chargeStep_lookup_none u c x.1 hr]
  | some inner =>
    rw [hr] at hx'
    obtain ⟨inner', hl, hs⟩ := chargeStep_lookup_isSome u c x.1 x.2.1 inner hr hx'
    rw [hl]
    exact hs

theorem chargeUnstep_chargeStep (u : UsedMap) (c : String × String × Nat)
    (h : (match lookupA u c.1 with
          | none => true
          | some inner => (lookupA inner c.2.1).isSome) = true) :
    chargeUnstep (chargeStep u c) c = u := by
  match hr : lookupA u c.1 with
  | none =>
    have hstep : chargeStep u c = u := by
      simp [chargeStep, hr]
    rw [hstep]
    unfold chargeUnstep
    rw [hr]
  | some inner =>
    simp only [hr] at h
    match hv : lookupA inner c.2.1 with
    | none =>
      rw [hv] at h
      simp at h
    | some v =>
      have hstep : chargeStep u c = insertA u c.1 (insertA inner c.2.1 (v + c.2.2)) := by
        simp [chargeStep, hr, hv]
      rw [hstep]
      unfold chargeUnstep
      simp only [lookupA_insertA_self, Nat.add_sub_cancel, insertA_insertA_same]
      rw [insertA_lookupA_self _ _ _ hv, insertA_lookupA_self _ _ _ hr]

/-- Undoing a charge list in reverse order after adding it restores the table,
provided the charges stay within its shape. -/
theorem removeCharges_addCharges (ch : List (String × String × Nat)) (u : UsedMap)
    (h : chargesOK u ch = true) :
    ch.foldr (fun c acc => chargeUnstep acc c) (ch.foldl chargeStep u) = u := by
  induction ch generalizing u with
  | nil => rfl
  | cons c t ih =>
    simp only [List.foldl_cons, List.foldr_cons]
    simp only [chargesOK, List.all_eq_true, List.mem_cons] at h
    have hc := h c (Or.inl rfl)
    have ht : chargesOK (chargeStep u c) t = true := by
      apply chargesOK_step
      simp only [chargesOK, List.all_eq_true]
      exact fun x hx => h x (Or.inr hx)
    rw [ih (chargeStep u c) ht]
    exact chargeUnstep_chargeStep u c hc

/-- `removeUsage` undoes `addUsage` exactly when the workload's charges stay
within the shape of the used-resources table. -/
theorem removeUsage_addUsage (u : UsedMap) (w : Workload)
    (h : chargesOK u (charges w) = true) :
    removeUsage (addUsage u w) w = u := by
  unfold removeUsage addUsage
  exact removeCharges_addCharges (charges w) u h

/-! ### Workload operations (spec section 4.5)

All modelled from the spec: `AddOrUpdateWorkload`, `AssumeWorkload`,
`ForgetWorkload`, `UpdateWorkload` and `DeleteWorkload` of section 4.5 are not
among the sources; each definition follows the spec's bullet for the operation,
with the test expectations of `TestCacheWorkloadOperations` pinning the
observable results.  Stateful Go methods become functions returning the result
together with the post-state. -/

/-- Register a workload in a cluster-queue and charge its usage
(spec section 4.5, the final insert bullet of AddOrUpdateWorkload). -/
def addWorkloadToCQ (cq : ClusterQueue) (w : Workload) : ClusterQueue :=
  { cq with workloads := insertA cq.workloads w.key w,
            usedResources := addUsage cq.usedResources w }

/-- Drop a workload from a cluster-queue and subtract its usage; no-op when
the key is absent (spec sections 4.3 and 4.5). -/
def deleteWorkloadFromCQ (cq : ClusterQueue) (key : String) : ClusterQueue :=
  match lookupA cq.workloads key with
  | none => cq
  | some w =>
    { cq with workloads := eraseA cq.workloads key,
              usedResources := removeUsage cq.usedResources w }

/-- Remove a key from a cluster-queue's assumed set. -/
def cqRemoveFlag (cq : ClusterQueue) (key : String) : ClusterQueue :=
  { cq with assumedWorkloads := removeS cq.assumedWorkloads key }

/-- Record a key in a cluster-queue's assumed set. -/
def cqAddFlag (cq : ClusterQueue) (key : String) : ClusterQueue :=
  { cq with assumedWorkloads := insertS cq.assumedWorkloads key }

/-- Undo an assumed workload at its owning cluster-queue: remove from
`workloads`, subtract usage and clear both assumed records
(spec section 4.5, ForgetWorkload and the undo step of AddOrUpdateWorkload). -/
def undoAssumedAt (c : Cache) (cn key : String) : Cache :=
  { c with assumedWorkloads := eraseA c.assumedWorkloads key,
           clusterQueues := mapAt c.clusterQueues cn
             (fun cq => cqRemoveFlag (deleteWorkloadFromCQ cq key) key) }

/-- Queue-map half of `addIfAbsent`: insert the workload at the named queue
unless its key is already present there. -/
def addIfAbsentQ (qs : List (String × ClusterQueue)) (cqName : String) (w : Workload) :
    List (String × ClusterQueue) :=
  match lookupA qs cqName with
  | none => qs
  | some cq =>
    if (lookupA cq.workloads w.key).isSome then qs
    else mapAt qs cqName (fun q => addWorkloadToCQ q w)

/-- Insert a workload into the named queue unless its key is already present
(spec section 4.5, the no-op and insert bullets of AddOrUpdateWorkload). -/
def addIfAbsent (c : Cache) (cqName : String) (w : Workload) : Cache :=
  { c with clusterQueues := addIfAbsentQ c.clusterQueues cqName w }

/-- Modelled from the spec: `AddOrUpdateWorkload` of section 4.5.  Succeeds iff
the admission names a known cluster-queue; confirms a matching assumed entry by
clearing the assumed records (usage stays as booked); undoes an assumed entry
pointing elsewhere before adding afresh; is a no-op when the key is already in
the target queue's workloads. -/
def addOrUpdateWorkload (c : Cache) (w : Workload) : Bool × Cache :=
  match w.admission with
  | none => (false, c)
  | some adm =>
    match lookupA c.clusterQueues adm.clusterQueue with
    | none => (false, c)
    | some _ =>
      match lookupA c.assumedWorkloads w.key with
      | some cn =>
        if cn = adm.clusterQueue then
          (true, { c with assumedWorkloads := eraseA c.assumedWorkloads w.key,
                          clusterQueues := mapAt c.clusterQueues cn
                            (fun cq => cqRemoveFlag cq w.key) })
        else
          (true, addIfAbsent (undoAssumedAt c cn w.key) adm.clusterQueue w)
      | none => (true, addIfAbsent c adm.clusterQueue w)

/-- Modelled from the spec: `AssumeWorkload` of section 4.5.  Errors when the
target is unknown or the key is already in the target queue's workloads;
otherwise behaves exactly like `AddOrUpdateWorkload` with the key additionally
recorded in the global assumed index and the queue's assumed set.  An absent
admission is reported as an unknown cluster-queue. -/
def assumeWorkload (c : Cache) (w : Workload) : Option CacheError × Cache :=
  match w.admission with
  | none => (some CacheError.clusterQueueNotFound, c)
  | some adm =>
    match lookupA c.clusterQueues adm.clusterQueue with
    | none => (some CacheError.clusterQueueNotFound, c)
    | some cq =>
      if (lookupA cq.workloads w.key).isSome then
        (some CacheError.workloadAlreadyExists, c)
      else
        (none,
          { (addOrUpdateWorkload c w).2 with
              assumedWorkloads :=
                insertA (addOrUpdateWorkload c w).2.assumedWorkloads w.key adm.clusterQueue,
              clusterQueues :=
                mapAt (addOrUpdateWorkload c w).2.clusterQueues adm.clusterQueue
                  (fun q => cqAddFlag q w.key) })

/-- Modelled from the spec: `ForgetWorkload` of section 4.5.  Errors when the
key is not in the global assumed index; otherwise locates the owning
cluster-queue through the index and undoes the assumed state.  A dangling
index entry whose queue vanished reports the queue as not found. -/
def forgetWorkload (c : Cache) (w : Workload) : Option CacheError × Cache :=
  match lookupA c.assumedWorkloads w.key with
  | none => (some CacheError.notAssumed, c)
  | some cn =>
    match lookupA c.clusterQueues cn with
    | none => (some CacheError.clusterQueueNotFound, c)
    | some _ => (none, undoAssumedAt c cn w.key)

/-- Clear any assumed record for a key: drop the global index entry and the
flag at the queue it points to. -/
def clearAssumedState (c : Cache) (key : String) : Cache :=
  match lookupA c.assumedWorkloads key with
  | none => c
  | some cn =>
    { c with assumedWorkloads := eraseA c.assumedWorkloads key,
             clusterQueues := mapAt c.clusterQueues cn (fun cq => cqRemoveFlag cq key) }

/-- Removal half of `UpdateWorkload`: drop the old version from its queue. -/
def updateWorkloadRemoveOld (c : Cache) (old : Workload) (oldQ : Option String) : Cache :=
  match oldQ with
  | none => c
  | some qn =>
    { c with clusterQueues :=
        mapAt c.clusterQueues qn (fun cq => deleteWorkloadFromCQ cq old.key) }

/-- Second phase of `UpdateWorkload`: check the new queue, then remove the old
version and add the new one (spec section 4.5). -/
def updateWorkloadCommit (c : Cache) (old new : Workload) (oldQ : Option String) :
    Option CacheError × Cache :=
  match new.admission with
  | none =>
    (none, clearAssumedState (updateWorkloadRemoveOld c old oldQ) old.key)
  | some adm =>
    match lookupA c.clusterQueues adm.clusterQueue with
    | none => (some CacheError.newClusterQueueMissing, c)
    | some _ =>
      (none,
        addIfAbsent (clearAssumedState (updateWorkloadRemoveOld c old oldQ) old.key)
          adm.clusterQueue new)

/-- Modelled from the spec: `UpdateWorkload` of section 4.5.  Both referenced
queues are checked before any mutation (the operation is atomic to readers);
then the old version is removed at its queue together with any assumed record,
and the new version is added at its queue.  A version without admission
imposes no check and no add on its side. -/
def updateWorkload (c : Cache) (old new : Workload) : Option CacheError × Cache :=
  match old.admission with
  | some adm =>
    match lookupA c.clusterQueues adm.clusterQueue with
    | none => (some CacheError.oldClusterQueueMissing, c)
    | some _ => updateWorkloadCommit c old new (some adm.clusterQueue)
  | none => updateWorkloadCommit c old new none

/-- Modelled from the spec: `DeleteWorkload` of section 4.5.  Errors when the
referenced queue is unknown; otherwise removes the workload, subtracts usage
and clears any assumed record. -/
def deleteWorkload (c : Cache) (w : Workload) : Option CacheError × Cache :=
  match w.admission with
  | none => (some CacheError.clusterQueueNotFound, c)
  | some adm =>
    match lookupA c.clusterQueues adm.clusterQueue with
    | none => (some CacheError.clusterQueueNotFound, c)
    | some _ =>
      (none, clearAssumedState
        { c with clusterQueues :=
            mapAt c.clusterQueues adm.clusterQueue (fun cq => deleteWorkloadFromCQ cq w.key) }
        w.key)

/-! ### Cluster-queue, cohort and flavor-registry operations
(spec sections 4.2 and 4.3)

All modelled from the spec: `AddClusterQueue`, `UpdateClusterQueue`,
`DeleteClusterQueue`, `AddOrUpdateResourceFlavor` and `DeleteResourceFlavor`
are not among the sources; the definitions follow sections 4.2 and 4.3, with
`TestCacheClusterQueueOperations` pinning the observable results. -/

/-- Quota declaration for one flavor before normalisation. -/
structure FlavorQSpec where
  name : String
  min : Qty
  max : Option Qty
deriving DecidableEq, Repr

/-- The declared spec of a cluster-queue as handed to Add/Update. -/
structure CQSpec where
  name : String
  cohortName : String
  resources : List (String × List FlavorQSpec)
deriving DecidableEq, Repr

/-- Normalise the declared quota of one resource (spec section 4.1). -/
def buildLimits (r : String) (fs : List FlavorQSpec) : List FlavorLimits :=
  fs.map (fun f => { name := f.name, min := normalise r f.min, max := f.max.map (normalise r) })

/-- Build the requestable-resources table in declaration order (spec 4.3 Add). -/
def buildResources (rs : List (String × List FlavorQSpec)) :
    List (String × List FlavorLimits) :=
  rs.map (fun p => (p.1, buildLimits p.1 p.2))

/-- A zero-valued used-resources table mirroring a quota table's shape. -/
def zeroUsed (rs : List (String × List FlavorLimits)) : UsedMap :=
  rs.map (fun p => (p.1, p.2.map (fun fl => (fl.name, 0))))

/-- Rebuild a used table against a new quota shape, carrying over counts of
surviving (resource, flavor) pairs and zeroing new ones (spec 4.3 Update). -/
def rebuildUsed (old : UsedMap) (rs : List (String × List FlavorLimits)) : UsedMap :=
  rs.map (fun p =>
    (p.1, p.2.map (fun fl =>
      (fl.name, ((lookupA old p.1).bind (fun inner => lookupA inner fl.name)).getD 0))))

/-- Every flavor referenced from a quota table exists in the registry. -/
def allFlavorsKnown (rs : List (String × List FlavorLimits))
    (reg : List (String × ResourceFlavor)) : Bool :=
  rs.all (fun p => p.2.all (fun fl => (lookupA reg fl.name).isSome))

/-- Readiness recomputation: Active iff every referenced flavor exists
(spec section 3, `status`). -/
def computeStatus (rs : List (String × List FlavorLimits))
    (reg : List (String × ResourceFlavor)) : Status :=
  if allFlavorsKnown rs reg then Status.active else Status.pending

/-- Does a quota table reference a flavor name? -/
def referencesFlavor (rs : List (String × List FlavorLimits)) (fname : String) : Bool :=
  rs.any (fun p => p.2.any (fun fl => fl.name = fname))

/-- Join a cohort, creating it on first reference (spec section 3, Cohort). -/
def joinCohort (cohorts : List (String × Cohort)) (coName member : String) :
    List (String × Cohort) :=
  match lookupA cohorts coName with
  | some co => insertA cohorts coName { co with members := insertS co.members member }
  | none => insertA cohorts coName { name := coName, members := [member] }

/-- Leave a cohort, destroying it when its membership drops to zero
(spec section 3, Cohort). -/
def leaveCohort (cohorts : List (String × Cohort)) (coName member : String) :
    List (String × Cohort) :=
  match lookupA cohorts coName with
  | none => cohorts
  | some co =>
    if removeS co.members member = [] then eraseA cohorts coName
    else insertA cohorts coName { co with members := removeS co.members member }

/-- Join a cohort unless the name is empty. -/
def joinCohortIf (cohorts : List (String × Cohort)) (coName member : String) :
    List (String × Cohort) :=
  if coName = "" then cohorts else joinCohort cohorts coName member

/-- Leave a cohort unless the name is empty. -/
def leaveCohortIf (cohorts : List (String × Cohort)) (coName member : String) :
    List (String × Cohort) :=
  if coName = "" then cohorts else leaveCohort cohorts coName member

/-- Re-attach one already-known admitted workload to a fresh cluster-queue
when it targets it and is not yet present (spec section 4.5,
AddClusterQueue). -/
def registerStep (cq : ClusterQueue) (w : Workload) : ClusterQueue :=
  match w.admission with
  | none => cq
  | some adm =>
    if adm.clusterQueue = cq.name ∧ (lookupA cq.workloads w.key).isNone
    then addWorkloadToCQ cq w else cq

/-- Register the already-known admitted workloads that target a fresh
cluster-queue and apply their usage (spec section 4.5, AddClusterQueue). -/
def registerKnown (cq : ClusterQueue) (known : List Workload) : ClusterQueue :=
  known.foldl registerStep cq

/-- Modelled from the spec: `AddClusterQueue` of sections 4.3 and 4.5.  Fails
when the name is taken; otherwise builds the tables, computes the status from
the current registry, joins the named cohort (an empty cohort-name means no
shared cohort) and registers the supplied already-known admitted workloads.
The external workload lister is passed in as a list. -/
def addClusterQueue (c : Cache) (s : CQSpec) (known : List Workload) :
    Option CacheError × Cache :=
  if (lookupA c.clusterQueues s.name).isSome then (some CacheError.alreadyExists, c)
  else
    (none,
      { c with
          clusterQueues := insertA c.clusterQueues s.name
            (registerKnown
              { name := s.name
                cohortName := s.cohortName
                requestableResources := buildResources s.resources
                usedResources := zeroUsed (buildResources s.resources)
                workloads := []
                assumedWorkloads := []
                status := computeStatus (buildResources s.resources) c.resourceFlavors }
              known)
          cohorts := joinCohortIf c.cohorts s.cohortName s.name })

/-- Modelled from the spec: `UpdateClusterQueue` of section 4.3.  Replaces the
quota tables in place, rebuilds the used table carrying surviving counts,
moves cohorts when the cohort-name changes (destroying an emptied cohort) and
recomputes the status. -/
def updateClusterQueue (c : Cache) (s : CQSpec) : Option CacheError × Cache :=
  match lookupA c.clusterQueues s.name with
  | none => (some CacheError.clusterQueueNotFound, c)
  | some cq =>
    (none,
      { c with
          clusterQueues := insertA c.clusterQueues s.name
            { cq with
                cohortName := s.cohortName
                requestableResources := buildResources s.resources
                usedResources := rebuildUsed cq.usedResources (buildResources s.resources)
                status := computeStatus (buildResources s.resources) c.resourceFlavors }
          cohorts :=
            if cq.cohortName = s.cohortName then c.cohorts
            else
              joinCohortIf
                (leaveCohortIf c.cohorts cq.cohortName s.name) s.cohortName s.name })

/-- Modelled from the spec: `DeleteClusterQueue` of section 4.3.  Removes the
entry and leaves its cohort (destroying it when emptied); the queue's
workloads become untracked. -/
def deleteClusterQueue (c : Cache) (name : String) : Cache :=
  match lookupA c.clusterQueues name with
  | none => c
  | some cq =>
    { c with clusterQueues := eraseA c.clusterQueues name,
             cohorts := leaveCohortIf c.cohorts cq.cohortName name }

/-- Modelled from the spec: `UpsertFlavor` of section 4.2.  Inserts or
replaces the flavor by name; every cluster-queue that references it
re-evaluates its status against the updated registry. -/
def addOrUpdateResourceFlavor (c : Cache) (f : ResourceFlavor) : Cache :=
  { c with
      resourceFlavors := insertA c.resourceFlavors f.name f
      clusterQueues := mapVal c.clusterQueues (fun cq =>
        if referencesFlavor cq.requestableResources f.name then
          { cq with status :=
              computeStatus cq.requestableResources (insertA c.resourceFlavors f.name f) }
        else cq) }

/-- Modelled from the spec: `DeleteFlavor` of section 4.2.  Removes the entry;
every cluster-queue that referenced it re-evaluates its status. -/
def deleteResourceFlavor (c : Cache) (name : String) : Cache :=
  { c with
      resourceFlavors := eraseA c.resourceFlavors name
      clusterQueues := mapVal c.clusterQueues (fun cq =>
        if referencesFlavor cq.requestableResources name then
          { cq with status :=
              computeStatus cq.requestableResources (eraseA c.resourceFlavors name) }
        else cq) }

/-! ### Usage reader (spec section 4.5, `Usage`) -/

/-- The reported usage of one (resource, flavor) pair: the fixed-point total
and, when borrowing, the borrowed amount. -/
structure FlavorUsage where
  total : Nat
  borrowed : Option Nat
deriving DecidableEq, Repr

/-- The declared min of a flavor within a quota table, when the flavor
appears there. -/
def flavorMin (rs : List (String × List FlavorLimits)) (r f : String) : Option Nat :=
  match lookupA rs r with
  | none => none
  | some fls => (fls.find? (fun fl => fl.name = f)).map (fun fl => fl.min)

/-- Usage report entry for one flavor: `borrowed` is reported only when the
flavor appears in the quota and the total exceeds its min, as
`TestClusterQueueUsage` pins (a quota'd flavor at or below its min omits the
field). -/
def mkFlavorUsage (cq : ClusterQueue) (r f : String) (total : Nat) : FlavorUsage :=
  { total := total
    borrowed :=
      match flavorMin cq.requestableResources r f with
      | none => none
      | some m => if m < total then some (total - m) else none }

/-- Modelled from the spec: `Usage` of section 4.5.  Returns the per-resource,
per-flavor usage snapshot built over the used-resources table together with
the workload count, or nothing when the cluster-queue is unknown. -/
def usage (c : Cache) (name : String) :
    Option (List (String × List (String × FlavorUsage)) × Nat) :=
  match lookupA c.clusterQueues name with
  | none => none
  | some cq =>
    some (cq.usedResources.map (fun p =>
            (p.1, p.2.map (fun q => (q.1, mkFlavorUsage cq p.1 q.1 q.2)))),
          cq.workloads.length)

/-- Report entry for a single (resource, flavor) pair, the per-pair reading of
`usage`. -/
def usageEntry (c : Cache) (name r f : String) : Option FlavorUsage :=
  match lookupA c.clusterQueues name with
  | none => none
  | some cq =>
    match lookupA cq.usedResources r with
    | none => none
    | some inner =>
      match lookupA inner f with
      | none => none
      | some total => some (mkFlavorUsage cq r f total)

/-! ### Sequences of cluster-queue and flavor-registry mutations -/

/-- A cluster-queue or flavor-registry mutation (the operations of spec
sections 4.2 and 4.3 as invoked through the cache of section 4.5). -/
inductive COp where
  | addCQ (s : CQSpec) (known : List Workload)
  | updateCQ (s : CQSpec)
  | deleteCQ (name : String)
  | addFlavor (f : ResourceFlavor)
  | deleteFlavor (name : String)
deriving DecidableEq, Repr

/-- Apply one mutation to the cache (erroring operations leave it unchanged). -/
def applyCOp (c : Cache) : COp → Cache
  | COp.addCQ s known => (addClusterQueue c s known).2
  | COp.updateCQ s => (updateClusterQueue c s).2
  | COp.deleteCQ name => deleteClusterQueue c name
  | COp.addFlavor f => addOrUpdateResourceFlavor c f
  | COp.deleteFlavor name => deleteResourceFlavor c name

/-- The cache after a sequence of mutations starting from the empty cache. -/
def runOps (ops : List COp) : Cache :=
  ops.foldl applyCOp emptyCache

/-- Status correctness (spec P6): every present cluster-queue is Active
exactly when all its referenced flavors exist in the registry. -/
def StatusInv (c : Cache) : Prop :=
  ∀ n cq, lookupA c.clusterQueues n = some cq →
    (cq.status = Status.active ↔ allFlavorsKnown cq.requestableResources c.resourceFlavors = true)

/-- Cohort coherence (spec P3) over a queue map and a cohort map: no cohort
carries the empty name; a name is a member of a present cohort exactly when a
present cluster-queue of that name declares the cohort; and every declared
nonempty cohort is present. -/
def CohortOK (qs : List (String × ClusterQueue)) (cos : List (String × Cohort)) : Prop :=
  lookupA cos "" = none ∧
  (∀ coN co, lookupA cos coN = some co →
    ∀ q, q ∈ co.members ↔ ∃ cq, lookupA qs q = some cq ∧ cq.cohortName = coN) ∧
  (∀ n cq, lookupA qs n = some cq → cq.cohortName ≠ "" →
    (lookupA cos cq.cohortName).isSome = true)

/-- Cohort coherence of a cache (spec P3). -/
def CohortInv (c : Cache) : Prop :=
  CohortOK c.clusterQueues c.cohorts

/-! ### Indexers (`pkg/util/indexer/indexer.go`) -/

/-- An orchestrator client object as the pure indexers receive it: a workload,
a local queue (carrying its target cluster-queue name), or any other kind. -/
inductive ClientObject where
  | workload (wl : Workload)
  | localQueue (name : String) (clusterQueue : String)
  | other (kind : String)
deriving DecidableEq, Repr

/-- `IndexWorkloadClusterQueue` of `pkg/util/indexer/indexer.go`: nil for a
non-Workload object or a Workload without admission, otherwise the one-element
list holding the admitted cluster-queue's name. -/
def IndexWorkloadClusterQueue : ClientObject → Option (List String)
  | ClientObject.workload wl =>
    match wl.admission with
    | none => none
    | some adm => some [adm.clusterQueue]
  | _ => none

/-! ### Concrete fixtures

The queues, workloads and scenarios of `TestCacheWorkloadOperations`,
`TestClusterQueueUsage` (scenario S4) and the counterexample probes, used by
the witnesses below. -/

/-- The `driver` pod-set of the workload tests: 1 pod, cpu 10m, memory 512Ki. -/
def fxDriver : PodSet :=
  { name := "driver", count := 1, requests := [("cpu", ⟨10, true⟩), ("memory", ⟨524288, false⟩)] }

/-- The `workers` pod-set of the workload tests: 3 pods, cpu 5m each. -/
def fxWorkers : PodSet :=
  { name := "workers", count := 3, requests := [("cpu", ⟨5, true⟩)] }

/-- Flavor assignment of the workload tests: driver on-demand, workers spot. -/
def fxFlavors : List PodSetFlavors :=
  [{ name := "driver", flavors := [("cpu", "on-demand")] },
   { name := "workers", flavors := [("cpu", "spot")] }]

/-- Workload `a`, admitted to queue `one` with pod-sets and flavors. -/
def fxWlA : Workload :=
  { key := "/a", podSets := [fxDriver, fxWorkers],
    admission := some { clusterQueue := "one", podSetFlavors := fxFlavors } }

/-- Workload `b`, admitted to queue `one` without pod-sets. -/
def fxWlB : Workload :=
  { key := "/b", podSets := [], admission := some { clusterQueue := "one", podSetFlavors := [] } }

/-- Workload `c`, admitted to queue `two` without flavor assignment. -/
def fxWlC : Workload :=
  { key := "/c", podSets := [fxDriver, fxWorkers],
    admission := some { clusterQueue := "two", podSetFlavors := [] } }

/-- Workload `d` with pod-sets and flavors, targeting queue `one`. -/
def fxWlD : Workload :=
  { key := "/d", podSets := [fxDriver, fxWorkers],
    admission := some { clusterQueue := "one", podSetFlavors := fxFlavors } }

/-- A workload targeting the unknown queue `three`. -/
def fxWlUnknown : Workload :=
  { key := "/u", podSets := [], admission := some { clusterQueue := "three", podSetFlavors := [] } }

/-- Declared spec of the test queues `one` and `two`: cpu with flavors
on-demand and spot, no cohort. -/
def fxSpec (n : String) : CQSpec :=
  { name := n, cohortName := "",
    resources := [("cpu", [⟨"on-demand", ⟨0, false⟩, none⟩, ⟨"spot", ⟨0, false⟩, none⟩])] }

/-- The workload-test cache: queues `one` and `two` with the pre-listed
admitted workloads `a`, `b` and `c` re-attached, as `TestCacheWorkloadOperations`
builds it. -/
def fxCache : Cache :=
  (addClusterQueue ((addClusterQueue emptyCache (fxSpec "one") [fxWlA, fxWlB, fxWlC]).2)
    (fxSpec "two") [fxWlA, fxWlB, fxWlC]).2

/-- Resource declaration of scenario S4's queue `foo`. -/
def s4res : List (String × List FlavorQSpec) :=
  [("cpu", [⟨"default", ⟨10, false⟩, some ⟨20, false⟩⟩]),
   ("example.com/gpu", [⟨"model_a", ⟨5, false⟩, some ⟨10, false⟩⟩, ⟨"model_b", ⟨5, false⟩, none⟩])]

/-- Scenario S4's cluster-queue `foo`. -/
def s4spec : CQSpec := { name := "foo", cohortName := "", resources := s4res }

/-- Pod-set of scenario S4's workload `one`: 1 pod, cpu 8, gpu 5. -/
def s4ps1 : PodSet :=
  { name := "main", count := 1, requests := [("cpu", ⟨8, false⟩), ("example.com/gpu", ⟨5, false⟩)] }

/-- Pod-set of scenario S4's workload `two`: 1 pod, cpu 5, gpu 6. -/
def s4ps2 : PodSet :=
  { name := "main", count := 1, requests := [("cpu", ⟨5, false⟩), ("example.com/gpu", ⟨6, false⟩)] }

/-- Flavor assignment of scenario S4's workload `one`. -/
def s4f1 : PodSetFlavors :=
  { name := "main", flavors := [("cpu", "default"), ("example.com/gpu", "model_a")] }

/-- Flavor assignment of scenario S4's workload `two`. -/
def s4f2 : PodSetFlavors :=
  { name := "main", flavors := [("cpu", "default"), ("example.com/gpu", "model_b")] }

/-- Scenario S4's workload `one`: cpu 8, gpu 5 on default and model_a. -/
def s4w1 : Workload :=
  { key := "/one", podSets := [s4ps1],
    admission := some { clusterQueue := "foo", podSetFlavors := [s4f1] } }

/-- Scenario S4's workload `two`: cpu 5, gpu 6 on default and model_b. -/
def s4w2 : Workload :=
  { key := "/two", podSets := [s4ps2],
    admission := some { clusterQueue := "foo", podSetFlavors := [s4f2] } }

/-- The cache of scenario S4 after admitting both workloads. -/
def s4cache : Cache :=
  (addOrUpdateWorkload ((addOrUpdateWorkload ((addClusterQueue emptyCache s4spec []).2) s4w1).2)
    s4w2).2

/-- The usage report scenario S4 yields: cpu.default 13000 milli borrowing
3000; gpu model_a 5 with `borrowed` omitted; gpu model_b 6 borrowing 1. -/
def s4report : List (String × List (String × FlavorUsage)) :=
  [("cpu", [("default", { total := 13000, borrowed := some 3000 })]),
   ("example.com/gpu",
    [("model_a", { total := 5, borrowed := none }),
     ("model_b", { total := 6, borrowed := some 1 })])]

/-- A queue tracking only the on-demand flavor, the stage of the forget
round-trip counterexample. -/
def cexSpec : CQSpec :=
  { name := "q", cohortName := "", resources := [("cpu", [⟨"on-demand", ⟨1, false⟩, none⟩])] }

/-- The single pod-set of the counterexample workload: 1 pod, cpu 2m. -/
def cexPS : PodSet := { name := "m", count := 1, requests := [("cpu", ⟨2, true⟩)] }

/-- A workload charging the spot flavor, which `cexSpec`'s quota does not
track. -/
def cexAdm : Admission :=
  { clusterQueue := "q", podSetFlavors := [{ name := "m", flavors := [("cpu", "spot")] }] }

/-- See `cexAdm`: the workload of the forget round-trip counterexample. -/
def cexW : Workload := { key := "/w", podSets := [cexPS], admission := some cexAdm }

/-- The counterexample cache holding only the queue built from `cexSpec`. -/
def cexC : Cache := (addClusterQueue emptyCache cexSpec []).2

/-- The queue `one` as stored in `fxCache`: workloads `a` and `b` attached,
usage cpu on-demand 10 and spot 15, pending (no flavor registered). -/
def fxStoredOne : ClusterQueue :=
  { name := "one", cohortName := "",
    requestableResources := [("cpu", [⟨"on-demand", 0, none⟩, ⟨"spot", 0, none⟩])],
    usedResources := [("cpu", [("on-demand", 10), ("spot", 15)])],
    workloads := [("/a", fxWlA), ("/b", fxWlB)],
    assumedWorkloads := [], status := Status.pending }

/-- The queue `foo` as stored in `s4cache` after both admissions. -/
def s4storedCQ : ClusterQueue :=
  { name := "foo", cohortName := "",
    requestableResources :=
      [("cpu", [⟨"default", 10000, some 20000⟩]),
       ("example.com/gpu", [⟨"model_a", 5, some 10⟩, ⟨"model_b", 5, none⟩])],
    usedResources :=
      [("cpu", [("default", 13000)]), ("example.com/gpu", [("model_a", 5), ("model_b", 6)])],
    workloads := [("/one", s4w1), ("/two", s4w2)],
    assumedWorkloads := [], status := Status.pending }

/-- Lookup after a key-aware value map rewrites to a mapped lookup. -/
theorem lookupA_mapKV [DecidableEq α] (l : List (α × β)) (g : α → β → γ) (a : α) :
    lookupA (l.map (fun p => (p.1, g p.1 p.2))) a = (lookupA l a).map (g a) := by
  induction l with
  | nil => simp [lookupA]
  | cons p t ih =>
    obtain ⟨k, v⟩ := p
    by_cases h : k = a
    · subst h
      simp [lookupA]
    · simp only [List.map_cons, lookupA, if_neg h]
      exact ih

/-! ### Claims -/

/-- C4: `AssumeWorkload` returns the cluster-queue-not-found error when the
admission names an unknown cluster-queue and the workload-already-exists error
when the key is already in the target queue's workloads; in both error cases
the returned cache is the unchanged input, so no workload set, usage counter
or assumed-index entry moves. -/
theorem c4_assume_errors (c : Cache) (w : Workload) (adm : Admission)
    (hadm : w.admission = some adm) :
    (lookupA c.clusterQueues adm.clusterQueue = none →
      assumeWorkload c w = (some CacheError.clusterQueueNotFound, c)) ∧
    (∀ cq, lookupA c.clusterQueues adm.clusterQueue = some cq →
      (lookupA cq.workloads w.key).isSome = true →
      assumeWorkload c w = (some CacheError.workloadAlreadyExists, c)) := by
  constructor
  · intro h
    simp [assumeWorkload, hadm, h]
  · intro cq h hk
    simp [assumeWorkload, hadm, h, hk]

/-- C4 witness: in the two-queue fixture, assuming a workload aimed at the
unknown queue `three` and assuming the already-present workload `b` both fail
with the stated errors and leave the cache untouched. -/
theorem c4_assume_errors_witness :
    assumeWorkload fxCache fxWlUnknown = (some CacheError.clusterQueueNotFound, fxCache) ∧
    assumeWorkload fxCache fxWlB = (some CacheError.workloadAlreadyExists, fxCache) :=
  ⟨(c4_assume_errors fxCache fxWlUnknown { clusterQueue := "three", podSetFlavors := [] }
      rfl).1 (by decide),
   (c4_assume_errors fxCache fxWlB { clusterQueue := "one", podSetFlavors := [] }
      rfl).2 fxStoredOne (by decide) (by decide)⟩

/-- C5: `UpdateWorkload` returns the old-cluster-queue-missing error when the
old version's admission names an unknown queue, and the
new-cluster-queue-missing error when the old version passes its check but the
new version's admission names an unknown queue; in either error case the
returned cache is the unchanged input, so every workload set and usage table
stays as it was. -/
theorem c5_update_errors (c : Cache) (old new : Workload) :
    (∀ adm, old.admission = some adm →
      lookupA c.clusterQueues adm.clusterQueue = none →
      updateWorkload c old new = (some CacheError.oldClusterQueueMissing, c)) ∧
    (∀ adm', new.admission = some adm' →
      lookupA c.clusterQueues adm'.clusterQueue = none →
      (old.admission = none ∨
        ∃ adm cq, old.admission = some adm ∧ lookupA c.clusterQueues adm.clusterQueue = some cq) →
      updateWorkload c old new = (some CacheError.newClusterQueueMissing, c)) := by
  constructor
  · intro adm hadm h
    simp [updateWorkload, hadm, h]
  · intro adm' hadm' h hold
    rcases hold with hnone | ⟨adm, cq, ha, hcq⟩
    · simp [updateWorkload, hnone, updateWorkloadCommit, hadm', h]
    · simp [updateWorkload, ha, hcq, updateWorkloadCommit, hadm', h]

/-- C5 witness: in the two-queue fixture, updating from a version admitted to
the unknown queue `three` reports the old queue missing, and updating from
queue `one` to the unknown queue `three` reports the new queue missing; the
cache is returned unchanged both times. -/
theorem c5_update_errors_witness :
    updateWorkload fxCache fxWlUnknown fxWlB = (some CacheError.oldClusterQueueMissing, fxCache) ∧
    updateWorkload fxCache fxWlB fxWlUnknown = (some CacheError.newClusterQueueMissing, fxCache) :=
  ⟨(c5_update_errors fxCache fxWlUnknown fxWlB).1 { clusterQueue := "three", podSetFlavors := [] }
      rfl (by decide),
   (c5_update_errors fxCache fxWlB fxWlUnknown).2 { clusterQueue := "three", podSetFlavors := [] }
      rfl (by decide)
      (Or.inr ⟨{ clusterQueue := "one", podSetFlavors := [] }, fxStoredOne, rfl, by decide⟩)⟩

/-- C9: quantity normalisation maps CPU-like quantities to milli-units — a
whole quantity is multiplied by 1000 and an already-milli quantity is
preserved; concretely, a declared cpu min of 10 is stored as 10000 in the
built quota table, and a pod-set requesting 5m with count 3 contributes
exactly 15 to the used counter of its admitted flavor. -/
theorem c9_normalisation :
    (∀ n : Nat, normalise "cpu" { value := n, milli := false } = n * 1000) ∧
    (∀ n : Nat, normalise "cpu" { value := n, milli := true } = n) ∧
    (lookupA s4cache.clusterQueues "foo").map
        (fun cq => lookupA cq.requestableResources "cpu") =
      some (some [{ name := "default", min := 10000, max := some 20000 }]) ∧
    ((lookupA fxCache.clusterQueues "one").bind
        (fun cq => (lookupA cq.usedResources "cpu").bind
          (fun inner => lookupA inner "spot"))) = some 15 := by
  refine ⟨fun n => ?_, fun n => ?_, by decide, by decide⟩
  · simp [normalise, scaleOf, scaleTable, lookupA]
  · simp [normalise, scaleOf, scaleTable, lookupA]

/-- C10: the pure indexer `IndexWorkloadClusterQueue` returns nil for any
object that is not a Workload and for a Workload without admission, and
otherwise exactly the one-element list holding the admitted cluster-queue's
name; every non-nil result has length one. -/
theorem c10_indexer (obj : ClientObject) :
    (∀ wl, obj = ClientObject.workload wl → wl.admission = none →
      IndexWorkloadClusterQueue obj = none) ∧
    ((∀ wl, obj ≠ ClientObject.workload wl) → IndexWorkloadClusterQueue obj = none) ∧
    (∀ wl adm, obj = ClientObject.workload wl → wl.admission = some adm →
      IndexWorkloadClusterQueue obj = some [adm.clusterQueue]) ∧
    (∀ l, IndexWorkloadClusterQueue obj = some l → l.length = 1) := by
  match obj with
  | ClientObject.workload wl =>
    refine ⟨?_, ?_, ?_, ?_⟩
    · intro wl' he h
      cases he
      simp [IndexWorkloadClusterQueue, h]
    · intro h
      exact absurd rfl (h wl)
    · intro wl' adm he h
      cases he
      simp [IndexWorkloadClusterQueue, h]
    · intro l h
      match hadm : wl.admission with
      | none =>
        simp [IndexWorkloadClusterQueue, hadm] at h
      | some adm =>
        simp [IndexWorkloadClusterQueue, hadm] at h
        rw [← h]
        rfl
  | ClientObject.localQueue n q =>
    refine ⟨?_, fun _ => rfl, ?_, ?_⟩
    · intro wl' he
      exact absurd he (by simp)
    · intro wl' adm he
      exact absurd he (by simp)
    · intro l h
      simp [IndexWorkloadClusterQueue] at h
  | ClientObject.other k =>
    refine ⟨?_, fun _ => rfl, ?_, ?_⟩
    · intro wl' he
      exact absurd he (by simp)
    · intro wl' adm he
      exact absurd he (by simp)
    · intro l h
      simp [IndexWorkloadClusterQueue] at h

/-- C10 witness: the indexer maps workload `b` (admitted to queue `one`) to
the one-element list and a non-workload object to nil. -/
theorem c10_indexer_witness :
    IndexWorkloadClusterQueue (ClientObject.workload fxWlB) = some ["one"] ∧
    IndexWorkloadClusterQueue (ClientObject.other "pod") = none :=
  ⟨(c10_indexer (ClientObject.workload fxWlB)).2.2.1 fxWlB
      { clusterQueue := "one", podSetFlavors := [] } rfl rfl,
   (c10_indexer (ClientObject.other "pod")).2.1 (fun _ h => ClientObject.noConfusion h)⟩

/-- C1 (counterexample): in scenario S4 the flavor `model_a` appears in the
quota with min 5 and has total 5, yet the usage report omits `borrowed`
instead of reporting borrowed = 0, contradicting the claim that `borrowed` is
omitted only for flavors absent from the quota. -/
theorem c1_counterexample :
    usage s4cache "foo" = some (s4report, 2) ∧
    (lookupA s4report "example.com/gpu").bind (fun l => lookupA l "model_a") =
      some { total := 5, borrowed := none } ∧
    (lookupA s4cache.clusterQueues "foo").map
        (fun cq => flavorMin cq.requestableResources "example.com/gpu" "model_a") =
      some (some 5) ∧
    ({ total := 5, borrowed := none } : FlavorUsage) ≠ { total := 5, borrowed := some 0 } := by
  refine ⟨by decide, by decide, by decide, by decide⟩

/-- C1 (amended): for every cluster-queue and every (resource, flavor) pair in
its used table, the usage report carries the fixed-point total, and `borrowed`
is present — equal to total minus min — exactly when the flavor appears in the
quota with min strictly below the total; it is omitted both for flavors absent
from the quota and for quota'd flavors whose total does not exceed their min.
Concretely, scenario S4 reports cpu.default 13000 borrowing 3000, model_a 5
with borrowed omitted, model_b 6 borrowing 1, and workload count 2. -/
theorem c1_borrowed_rule :
    (∀ (c : Cache) (name : String) (cq : ClusterQueue) (r f : String)
        (inner : List (String × Nat)) (total : Nat),
      lookupA c.clusterQueues name = some cq →
      lookupA cq.usedResources r = some inner →
      lookupA inner f = some total →
      ∃ rep, usage c name = some (rep, cq.workloads.length) ∧
        ∃ innerRep, lookupA rep r = some innerRep ∧
          lookupA innerRep f = some
            { total := total,
              borrowed :=
                match flavorMin cq.requestableResources r f with
                | none => none
                | some m => if m < total then some (total - m) else none } ) ∧
    usage s4cache "foo" = some (s4report, 2) := by
  constructor
  · intro c name cq r f inner total h1 h2 h3
    refine ⟨cq.usedResources.map
        (fun p => (p.1, p.2.map (fun q => (q.1, mkFlavorUsage cq p.1 q.1 q.2)))), ?_,
      inner.map (fun q => (q.1, mkFlavorUsage cq r q.1 q.2)), ?_, ?_⟩
    · unfold usage
      rw [h1]
    · rw [lookupA_mapKV cq.usedResources
        (fun r1 inner1 => inner1.map (fun q => (q.1, mkFlavorUsage cq r1 q.1 q.2))) r, h2]
      rfl
    · rw [lookupA_mapKV inner (fun f1 t1 => mkFlavorUsage cq r f1 t1) f, h3]
      rfl
  · decide

/-- C1 witness: the amended borrowed rule applied to scenario S4's pair
(gpu, model_b) — total 6, quota min 5 — yields the reported entry. -/
theorem c1_borrowed_rule_witness :
    ∃ rep, usage s4cache "foo" = some (rep, 2) ∧
      ∃ innerRep, lookupA rep "example.com/gpu" = some innerRep ∧
        lookupA innerRep "model_b" = some { total := 6, borrowed := some 1 } := by
  have h := c1_borrowed_rule.1 s4cache "foo" s4storedCQ "example.com/gpu" "model_b"
    [("model_a", 5), ("model_b", 6)] 6 (by decide) (by decide) (by decide)
  simpa using h

/-! ### Round-trip and idempotence machinery -/

/-- A successful first-match lookup exhibits a list member. -/
theorem lookupA_mem [DecidableEq α] (l : List (α × β)) (a : α) (b : β)
    (h : lookupA l a = some b) : (a, b) ∈ l := by
  induction l with
  | nil => simp [lookupA] at h
  | cons p t ih =>
    obtain ⟨k, v⟩ := p
    by_cases hk : k = a
    · subst hk
      simp [lookupA] at h
      simp [h]
    · simp only [lookupA, if_neg hk] at h
      exact List.mem_cons_of_mem _ (ih h)

/-- The assumed index is consistent at a key: when the index points to a
queue, that queue exists and holds the key (spec P2 restricted to one key). -/
def assumedConsistentFor (c : Cache) (key : String) : Bool :=
  match lookupA c.assumedWorkloads key with
  | none => true
  | some cn =>
    match lookupA c.clusterQueues cn with
    | none => false
    | some cq => (lookupA cq.workloads key).isSome

/-- The per-queue assumed flags are consistent with the index at a key: a
queue flags the key only when the index points to that queue (spec P2
restricted to one key). -/
def flagConsistentFor (c : Cache) (key : String) : Bool :=
  c.clusterQueues.all (fun p =>
    !(decide (key ∈ p.2.assumedWorkloads)) ||
      decide (lookupA c.assumedWorkloads key = some p.1))

theorem flagConsistentFor_spec (c : Cache) (key : String)
    (h : flagConsistentFor c key = true) (n : String) (q : ClusterQueue)
    (hl : lookupA c.clusterQueues n = some q) (hm : key ∈ q.assumedWorkloads) :
    lookupA c.assumedWorkloads key = some n := by
  have hmem := lookupA_mem _ _ _ hl
  simp only [flagConsistentFor, List.all_eq_true] at h
  have hq := h (n, q) hmem
  simp only [Bool.or_eq_true, Bool.not_eq_true', decide_eq_false_iff_not,
    decide_eq_true_eq] at hq
  rcases hq with hq | hq
  · exact absurd hm hq
  · exact hq

theorem addIfAbsentQ_present (qs : List (String × ClusterQueue)) (cqName : String)
    (w : Workload) (cq : ClusterQueue) (h : lookupA qs cqName = some cq) :
    ∃ cq', lookupA (addIfAbsentQ qs cqName w) cqName = some cq' ∧
      (lookupA cq'.workloads w.key).isSome = true := by
  unfold addIfAbsentQ
  rw [h]
  by_cases hp : (lookupA cq.workloads w.key).isSome = true
  · simp only [hp, if_true]
    exact ⟨cq, h, hp⟩
  · simp only [hp, if_false, Bool.false_eq_true]
    refine ⟨addWorkloadToCQ cq w, ?_, ?_⟩
    · rw [lookupA_mapAt_self, h]
      rfl
    · simp [addWorkloadToCQ]

/-- `AddOrUpdateWorkload` is a no-op returning success when the key is
already present at the known target and not in the assumed index. -/
theorem addOrUpdate_noop (s : Cache) (w : Workload) (adm : Admission)
    (hadm : w.admission = some adm) (cq' : ClusterQueue)
    (hl : lookupA s.clusterQueues adm.clusterQueue = some cq')
    (hp : (lookupA cq'.workloads w.key).isSome = true)
    (hidx : lookupA s.assumedWorkloads w.key = none) :
    addOrUpdateWorkload s w = (true, s) := by
  simp [addOrUpdateWorkload, hadm, hl, hidx, addIfAbsent, addIfAbsentQ, hp]

/-- C6: `AddOrUpdateWorkload` is idempotent — with the admission naming a
known cluster-queue and the assumed index consistent at the key, a second
call leaves the cache exactly as the first left it (the second call is a
no-op since the key is then present in the target queue's workloads, so no
usage is double-counted). -/
theorem c6_idempotent (c : Cache) (w : Workload) (adm : Admission)
    (hadm : w.admission = some adm)
    (cq : ClusterQueue) (hcq : lookupA c.clusterQueues adm.clusterQueue = some cq)
    (hcons : assumedConsistentFor c w.key = true) :
    addOrUpdateWorkload (addOrUpdateWorkload c w).2 w = addOrUpdateWorkload c w := by
  match hidx : lookupA c.assumedWorkloads w.key with
  | none =>
    have h1 : addOrUpdateWorkload c w = (true, addIfAbsent c adm.clusterQueue w) := by
      simp [addOrUpdateWorkload, hadm, hcq, hidx]
    obtain ⟨cq', hl, hp⟩ := addIfAbsentQ_present c.clusterQueues adm.clusterQueue w cq hcq
    rw [h1]
    exact addOrUpdate_noop (addIfAbsent c adm.clusterQueue w) w adm hadm cq' hl hp hidx
  | some cn =>
    have hc : ∃ cqn, lookupA c.clusterQueues cn = some cqn ∧
        (lookupA cqn.workloads w.key).isSome = true := by
      unfold assumedConsistentFor at hcons
      simp only [hidx] at hcons
      match hcn : lookupA c.clusterQueues cn with
      | none =>
        simp only [hcn] at hcons
        exact Bool.noConfusion hcons
      | some cqn =>
        simp only [hcn] at hcons
        exact ⟨cqn, rfl, hcons⟩
    obtain ⟨cqn, hcn, hin⟩ := hc
    by_cases he : cn = adm.clusterQueue
    · subst he
      have h1 : addOrUpdateWorkload c w =
          (true, { c with assumedWorkloads := eraseA c.assumedWorkloads w.key,
                          clusterQueues := mapAt c.clusterQueues adm.clusterQueue
                            (fun q => cqRemoveFlag q w.key) }) := by
        simp [addOrUpdateWorkload, hadm, hcq, hidx]
      rw [h1]
      refine addOrUpdate_noop _ w adm hadm (cqRemoveFlag cqn w.key) ?_ ?_ ?_
      · show lookupA (mapAt c.clusterQueues adm.clusterQueue
          (fun q => cqRemoveFlag q w.key)) adm.clusterQueue = _
        rw [lookupA_mapAt_self, hcn]
        rfl
      · exact hin
      · exact lookupA_eraseA_self c.assumedWorkloads w.key
    · have h1 : addOrUpdateWorkload c w =
          (true, addIfAbsent (undoAssumedAt c cn w.key) adm.clusterQueue w) := by
        simp [addOrUpdateWorkload, hadm, hcq, hidx, he]
      have hl' : lookupA (undoAssumedAt c cn w.key).clusterQueues adm.clusterQueue = some cq := by
        show lookupA (mapAt c.clusterQueues cn _) adm.clusterQueue = some cq
        rw [lookupA_mapAt_ne _ (fun hx => he hx.symm), hcq]
      obtain ⟨cq', hl, hp⟩ :=
        addIfAbsentQ_present (undoAssumedAt c cn w.key).clusterQueues adm.clusterQueue w cq hl'
      have hidx1 : lookupA (addIfAbsent (undoAssumedAt c cn w.key)
          adm.clusterQueue w).assumedWorkloads w.key = none := by
        show lookupA (eraseA c.assumedWorkloads w.key) w.key = none
        exact lookupA_eraseA_self c.assumedWorkloads w.key
      rw [h1]
      exact addOrUpdate_noop _ w adm hadm cq' hl hp hidx1

/-- C6 witness: adding workload `d` to queue `one` twice equals adding it
once. -/
theorem c6_idempotent_witness :
    addOrUpdateWorkload (addOrUpdateWorkload fxCache fxWlD).2 fxWlD =
      addOrUpdateWorkload fxCache fxWlD :=
  c6_idempotent fxCache fxWlD { clusterQueue := "one", podSetFlavors := fxFlavors } rfl
    fxStoredOne (by decide) (by decide)

/-- Two maps at the same key agree when their functions agree on the stored
value. -/
theorem mapAt_congr [DecidableEq α] (l : List (α × β)) (a : α) (f g : β → β)
    (h : ∀ v, lookupA l a = some v → f v = g v) : mapAt l a f = mapAt l a g := by
  induction l with
  | nil => rfl
  | cons p t ih =>
    obtain ⟨k, v⟩ := p
    by_cases hk : k = a
    · subst hk
      have hv : lookupA ((k, v) :: t) k = some v := by simp [lookupA]
      simp [mapAt, h v hv]
    · simp only [mapAt, if_neg hk]
      rw [ih (fun v hv => h v (by simpa [lookupA, hk] using hv))]

/-- C2: assume-then-commit equals plain commit.  With the admission naming a
known cluster-queue, the key absent from that queue's workloads and the
per-queue assumed flags consistent with the index at the key, `AssumeWorkload`
succeeds, `AssumeWorkload` followed by `AddOrUpdateWorkload` produces exactly
the cache `AddOrUpdateWorkload` alone produces, and the final state carries no
assumed-index entry and no per-queue assumed flag for the key. -/
theorem c2_assume_commit (c : Cache) (w : Workload) (adm : Admission)
    (hadm : w.admission = some adm)
    (cq : ClusterQueue) (hcq : lookupA c.clusterQueues adm.clusterQueue = some cq)
    (habs : lookupA cq.workloads w.key = none)
    (hflag : flagConsistentFor c w.key = true) :
    (assumeWorkload c w).1 = none ∧
    addOrUpdateWorkload (assumeWorkload c w).2 w = addOrUpdateWorkload c w ∧
    (∀ n q,
      lookupA (addOrUpdateWorkload (assumeWorkload c w).2 w).2.clusterQueues n = some q →
      w.key ∉ q.assumedWorkloads) ∧
    lookupA (addOrUpdateWorkload (assumeWorkload c w).2 w).2.assumedWorkloads w.key = none := by
  obtain ⟨qs, cos, rfs, idx⟩ := c
  simp only at hcq hflag
  have hknotin : ∀ n q, lookupA qs n = some q → lookupA idx w.key ≠ some n →
      w.key ∉ q.assumedWorkloads := by
    intro n q hl hne hm
    exact hne (flagConsistentFor_spec (Cache.mk qs cos rfs idx) w.key hflag n q hl hm)
  have hhabs : (lookupA cq.workloads w.key).isSome = false := by
    rw [habs]
    rfl
  match hidx : lookupA idx w.key with
  | none =>
    have hkn : w.key ∉ cq.assumedWorkloads :=
      hknotin adm.clusterQueue cq hcq (by simp [hidx])
    have a1 : addOrUpdateWorkload (Cache.mk qs cos rfs idx) w =
        (true, Cache.mk (mapAt qs adm.clusterQueue (fun q => addWorkloadToCQ q w))
          cos rfs idx) := by
      simp [addOrUpdateWorkload, hadm, hcq, hidx, addIfAbsent, addIfAbsentQ, hhabs]
    have hassume : assumeWorkload (Cache.mk qs cos rfs idx) w =
        (none, Cache.mk
          (mapAt (mapAt qs adm.clusterQueue (fun q => addWorkloadToCQ q w)) adm.clusterQueue
            (fun q => cqAddFlag q w.key))
          cos rfs (insertA idx w.key adm.clusterQueue)) := by
      simp [assumeWorkload, hadm, hcq, hhabs, a1]
    have hlook2 : lookupA
        (mapAt (mapAt qs adm.clusterQueue (fun q => addWorkloadToCQ q w)) adm.clusterQueue
          (fun q => cqAddFlag q w.key)) adm.clusterQueue =
        some (cqAddFlag (addWorkloadToCQ cq w) w.key) := by
      rw [lookupA_mapAt_self, lookupA_mapAt_self, hcq]
      rfl
    have hsecond : addOrUpdateWorkload (assumeWorkload (Cache.mk qs cos rfs idx) w).2 w =
        (true, Cache.mk
          (mapAt (mapAt (mapAt qs adm.clusterQueue (fun q => addWorkloadToCQ q w))
            adm.clusterQueue (fun q => cqAddFlag q w.key)) adm.clusterQueue
            (fun q => cqRemoveFlag q w.key))
          cos rfs (eraseA (insertA idx w.key adm.clusterQueue) w.key)) := by
      rw [hassume]
      simp [addOrUpdateWorkload, hadm, hlook2]
    have hidxF : eraseA (insertA idx w.key adm.clusterQueue) w.key = idx := by
      rw [eraseA_insertA]
      exact eraseA_of_lookupA_none _ _ hidx
    have hqF : mapAt (mapAt (mapAt qs adm.clusterQueue (fun q => addWorkloadToCQ q w))
        adm.clusterQueue (fun q => cqAddFlag q w.key)) adm.clusterQueue
        (fun q => cqRemoveFlag q w.key) =
        mapAt qs adm.clusterQueue (fun q => addWorkloadToCQ q w) := by
      rw [mapAt_mapAt, mapAt_mapAt]
      apply mapAt_congr
      intro v hv
      rw [hcq] at hv
      injection hv with hv
      subst hv
      simp [cqRemoveFlag, cqAddFlag, addWorkloadToCQ, removeS_insertS,
        removeS_of_not_mem _ _ hkn]
    refine ⟨by rw [hassume], ?_, ?_, ?_⟩
    · rw [hsecond, a1, hqF, hidxF]
    · rw [hsecond]
      intro n q hl
      simp only at hl
      rw [hqF] at hl
      by_cases hn : n = adm.clusterQueue
      · subst hn
        rw [lookupA_mapAt_self, hcq] at hl
        injection hl with hl
        subst hl
        exact hkn
      · rw [lookupA_mapAt_ne _ hn] at hl
        exact hknotin n q hl (by simp [hidx])
    · rw [hsecond]
      simp only
      rw [hidxF]
      exact hidx
  | some cn =>
    by_cases he : cn = adm.clusterQueue
    · rw [he] at hidx
      have hkn : ∀ q', lookupA qs adm.clusterQueue = some q' → w.key ∉ removeS q'.assumedWorkloads w.key := by
        intro q' _ hm
        rw [mem_removeS] at hm
        exact hm.2 rfl
      have a1 : addOrUpdateWorkload (Cache.mk qs cos rfs idx) w =
          (true, Cache.mk (mapAt qs adm.clusterQueue (fun q => cqRemoveFlag q w.key)) cos rfs
            (eraseA idx w.key)) := by
        simp [addOrUpdateWorkload, hadm, hcq, hidx]
      have hassume : assumeWorkload (Cache.mk qs cos rfs idx) w =
          (none, Cache.mk
            (mapAt (mapAt qs adm.clusterQueue (fun q => cqRemoveFlag q w.key)) adm.clusterQueue
              (fun q => cqAddFlag q w.key))
            cos rfs (insertA (eraseA idx w.key) w.key adm.clusterQueue)) := by
        simp [assumeWorkload, hadm, hcq, hhabs, a1]
      have hlook2 : lookupA
          (mapAt (mapAt qs adm.clusterQueue (fun q => cqRemoveFlag q w.key)) adm.clusterQueue
            (fun q => cqAddFlag q w.key)) adm.clusterQueue =
          some (cqAddFlag (cqRemoveFlag cq w.key) w.key) := by
        rw [lookupA_mapAt_self, lookupA_mapAt_self, hcq]
        rfl
      have hsecond : addOrUpdateWorkload (assumeWorkload (Cache.mk qs cos rfs idx) w).2 w =
          (true, Cache.mk
            (mapAt (mapAt (mapAt qs adm.clusterQueue (fun q => cqRemoveFlag q w.key)) adm.clusterQueue
              (fun q => cqAddFlag q w.key)) adm.clusterQueue (fun q => cqRemoveFlag q w.key))
            cos rfs (eraseA (insertA (eraseA idx w.key) w.key adm.clusterQueue) w.key)) := by
        rw [hassume]
        simp [addOrUpdateWorkload, hadm, hlook2]
      have hidxF : eraseA (insertA (eraseA idx w.key) w.key adm.clusterQueue) w.key = eraseA idx w.key := by
        rw [eraseA_insertA]
        exact eraseA_of_lookupA_none _ _ (lookupA_eraseA_self _ _)
      have hqF : mapAt (mapAt (mapAt qs adm.clusterQueue (fun q => cqRemoveFlag q w.key)) adm.clusterQueue
          (fun q => cqAddFlag q w.key)) adm.clusterQueue (fun q => cqRemoveFlag q w.key) =
          mapAt qs adm.clusterQueue (fun q => cqRemoveFlag q w.key) := by
        rw [mapAt_mapAt, mapAt_mapAt]
        apply mapAt_congr
        intro v hv
        simp [cqRemoveFlag, cqAddFlag, removeS_insertS,
          removeS_of_not_mem _ _ (hkn v hv)]
      refine ⟨by rw [hassume], ?_, ?_, ?_⟩
      · rw [hsecond, a1, hqF, hidxF]
      · rw [hsecond]
        intro n q hl
        simp only at hl
        rw [hqF] at hl
        by_cases hn : n = adm.clusterQueue
        · subst hn
          rw [lookupA_mapAt_self, hcq] at hl
          injection hl with hl
          subst hl
          exact hkn cq hcq
        · rw [lookupA_mapAt_ne _ hn] at hl
          refine hknotin n q hl ?_
          rw [hidx]
          intro hcon
          injection hcon with hcon
          exact hn hcon.symm
      · rw [hsecond]
        simp only
        rw [hidxF]
        exact lookupA_eraseA_self _ _
    · have hkn : w.key ∉ cq.assumedWorkloads := by
        refine hknotin adm.clusterQueue cq hcq ?_
        rw [hidx]
        intro hcon
        injection hcon with hcon
        exact he hcon
      have hlcq' : lookupA (mapAt qs cn
          (fun q => cqRemoveFlag (deleteWorkloadFromCQ q w.key) w.key)) adm.clusterQueue =
          some cq := by
        rw [lookupA_mapAt_ne _ (fun hx => he hx.symm)]
        exact hcq
      have a1 : addOrUpdateWorkload (Cache.mk qs cos rfs idx) w =
          (true, Cache.mk
            (mapAt (mapAt qs cn (fun q => cqRemoveFlag (deleteWorkloadFromCQ q w.key) w.key))
              adm.clusterQueue (fun q => addWorkloadToCQ q w))
            cos rfs (eraseA idx w.key)) := by
        simp [addOrUpdateWorkload, hadm, hcq, hidx, he, undoAssumedAt, addIfAbsent,
          addIfAbsentQ, hlcq', hhabs]
      have hassume : assumeWorkload (Cache.mk qs cos rfs idx) w =
          (none, Cache.mk
            (mapAt (mapAt (mapAt qs cn
              (fun q => cqRemoveFlag (deleteWorkloadFromCQ q w.key) w.key))
              adm.clusterQueue (fun q => addWorkloadToCQ q w)) adm.clusterQueue
              (fun q => cqAddFlag q w.key))
            cos rfs (insertA (eraseA idx w.key) w.key adm.clusterQueue)) := by
        simp [assumeWorkload, hadm, hcq, hhabs, a1]
      have hlook2 : lookupA
          (mapAt (mapAt (mapAt qs cn
            (fun q => cqRemoveFlag (deleteWorkloadFromCQ q w.key) w.key))
            adm.clusterQueue (fun q => addWorkloadToCQ q w)) adm.clusterQueue
            (fun q => cqAddFlag q w.key)) adm.clusterQueue =
          some (cqAddFlag (addWorkloadToCQ cq w) w.key) := by
        rw [lookupA_mapAt_self, lookupA_mapAt_self, hlcq']
        rfl
      have hsecond : addOrUpdateWorkload (assumeWorkload (Cache.mk qs cos rfs idx) w).2 w =
          (true, Cache.mk
            (mapAt (mapAt (mapAt (mapAt qs cn
              (fun q => cqRemoveFlag (deleteWorkloadFromCQ q w.key) w.key))
              adm.clusterQueue (fun q => addWorkloadToCQ q w)) adm.clusterQueue
              (fun q => cqAddFlag q w.key)) adm.clusterQueue
              (fun q => cqRemoveFlag q w.key))
            cos rfs (eraseA (insertA (eraseA idx w.key) w.key adm.clusterQueue) w.key)) := by
        rw [hassume]
        simp [addOrUpdateWorkload, hadm, hlook2]
      have hidxF : eraseA (insertA (eraseA idx w.key) w.key adm.clusterQueue) w.key =
          eraseA idx w.key := by
        rw [eraseA_insertA]
        exact eraseA_of_lookupA_none _ _ (lookupA_eraseA_self _ _)
      have hqF : mapAt (mapAt (mapAt (mapAt qs cn
          (fun q => cqRemoveFlag (deleteWorkloadFromCQ q w.key) w.key))
          adm.clusterQueue (fun q => addWorkloadToCQ q w)) adm.clusterQueue
          (fun q => cqAddFlag q w.key)) adm.clusterQueue
          (fun q => cqRemoveFlag q w.key) =
          mapAt (mapAt qs cn (fun q => cqRemoveFlag (deleteWorkloadFromCQ q w.key) w.key))
            adm.clusterQueue (fun q => addWorkloadToCQ q w) := by
        rw [mapAt_mapAt, mapAt_mapAt]
        apply mapAt_congr
        intro v hv
        rw [hlcq'] at hv
        injection hv with hv
        subst hv
        simp [cqRemoveFlag, cqAddFlag, addWorkloadToCQ, removeS_insertS,
          removeS_of_not_mem _ _ hkn]
      refine ⟨by rw [hassume], ?_, ?_, ?_⟩
      · rw [hsecond, a1, hqF, hidxF]
      · rw [hsecond]
        intro n q hl
        simp only at hl
        rw [hqF] at hl
        by_cases hn : n = adm.clusterQueue
        · subst hn
          rw [lookupA_mapAt_self, hlcq'] at hl
          injection hl with hl
          subst hl
          exact hkn
        · rw [lookupA_mapAt_ne _ hn] at hl
          by_cases hn2 : n = cn
          · subst hn2
            rw [lookupA_mapAt_self] at hl
            match hq0 : lookupA qs n with
            | none =>
              rw [hq0] at hl
              exact Option.noConfusion hl
            | some q0 =>
              rw [hq0] at hl
              injection hl with hl
              subst hl
              intro hm
              simp only [cqRemoveFlag] at hm
              rw [mem_removeS] at hm
              exact hm.2 rfl
          · rw [lookupA_mapAt_ne _ hn2] at hl
            refine hknotin n q hl ?_
            rw [hidx]
            intro hcon
            injection hcon with hcon
            exact hn2 hcon.symm
      · rw [hsecond]
        simp only
        rw [hidxF]
        exact lookupA_eraseA_self _ _

/-- C2 witness: assuming workload `d` at queue `one` and then committing it
equals committing it directly, with no residual assumed record. -/
theorem c2_assume_commit_witness :
    (assumeWorkload fxCache fxWlD).1 = none ∧
    addOrUpdateWorkload (assumeWorkload fxCache fxWlD).2 fxWlD =
      addOrUpdateWorkload fxCache fxWlD ∧
    (∀ n q,
      lookupA (addOrUpdateWorkload (assumeWorkload fxCache fxWlD).2 fxWlD).2.clusterQueues n =
        some q → fxWlD.key ∉ q.assumedWorkloads) ∧
    lookupA (addOrUpdateWorkload
      (assumeWorkload fxCache fxWlD).2 fxWlD).2.assumedWorkloads fxWlD.key = none :=
  c2_assume_commit fxCache fxWlD { clusterQueue := "one", podSetFlavors := fxFlavors } rfl
    fxStoredOne (by decide) (by decide) (by decide)

/-- C3 (counterexample): assume-then-forget does not restore every state.
The queue `q` tracks only the on-demand flavor; workload `/w` targets it (a
known queue, key absent from its workloads, nothing assumed), charges the
unquota'd spot flavor, and `AssumeWorkload` therefore inserts a spot entry
that `ForgetWorkload` only subtracts back to zero instead of dropping, so the
pre-state is not restored exactly. -/
theorem c3_counterexample :
    (lookupA cexC.clusterQueues "q").isSome = true ∧
    (lookupA cexC.clusterQueues "q").map (fun cq => lookupA cq.workloads "/w") = some none ∧
    lookupA cexC.assumedWorkloads "/w" = none ∧
    (assumeWorkload cexC cexW).1 = none ∧
    (forgetWorkload (assumeWorkload cexC cexW).2 cexW).1 = none ∧
    (forgetWorkload (assumeWorkload cexC cexW).2 cexW).2 ≠ cexC := by
  refine ⟨by decide, by decide, by decide, by decide, by decide, by decide⟩

/-- C3 (amended): assume-then-forget restores the pre-state exactly — all
workload sets, assumed sets, the global assumed index and every used counter —
for every workload whose admission targets a known cluster-queue, whose key is
absent from that queue's workloads, assumed set and the global index, and
whose charges stay within the shape of the queue's used-resources table (a
workload charging a flavor the used table does not track leaves a residual
zero-valued entry behind instead). -/
theorem c3_forget_roundtrip (c : Cache) (w : Workload) (adm : Admission)
    (hadm : w.admission = some adm)
    (cq : ClusterQueue) (hcq : lookupA c.clusterQueues adm.clusterQueue = some cq)
    (habs : lookupA cq.workloads w.key = none)
    (hidx : lookupA c.assumedWorkloads w.key = none)
    (hkn : w.key ∉ cq.assumedWorkloads)
    (hshape : chargesOK cq.usedResources (charges w) = true) :
    forgetWorkload (assumeWorkload c w).2 w = (none, c) := by
  obtain ⟨qs, cos, rfs, idx⟩ := c
  simp only at hcq hidx
  have hhabs : (lookupA cq.workloads w.key).isSome = false := by
    rw [habs]
    rfl
  have a1 : addOrUpdateWorkload (Cache.mk qs cos rfs idx) w =
      (true, Cache.mk (mapAt qs adm.clusterQueue (fun q => addWorkloadToCQ q w))
        cos rfs idx) := by
    simp [addOrUpdateWorkload, hadm, hcq, hidx, addIfAbsent, addIfAbsentQ, hhabs]
  have hassume : assumeWorkload (Cache.mk qs cos rfs idx) w =
      (none, Cache.mk
        (mapAt (mapAt qs adm.clusterQueue (fun q => addWorkloadToCQ q w)) adm.clusterQueue
          (fun q => cqAddFlag q w.key))
        cos rfs (insertA idx w.key adm.clusterQueue)) := by
    simp [assumeWorkload, hadm, hcq, hhabs, a1]
  have hlook2 : lookupA
      (mapAt (mapAt qs adm.clusterQueue (fun q => addWorkloadToCQ q w)) adm.clusterQueue
        (fun q => cqAddFlag q w.key)) adm.clusterQueue =
      some (cqAddFlag (addWorkloadToCQ cq w) w.key) := by
    rw [lookupA_mapAt_self, lookupA_mapAt_self, hcq]
    rfl
  have hforget : forgetWorkload (assumeWorkload (Cache.mk qs cos rfs idx) w).2 w =
      (none, Cache.mk
        (mapAt (mapAt (mapAt qs adm.clusterQueue (fun q => addWorkloadToCQ q w))
          adm.clusterQueue (fun q => cqAddFlag q w.key)) adm.clusterQueue
          (fun q => cqRemoveFlag (deleteWorkloadFromCQ q w.key) w.key))
        cos rfs (eraseA (insertA idx w.key adm.clusterQueue) w.key)) := by
    rw [hassume]
    simp [forgetWorkload, hlook2, undoAssumedAt]
  have hidxF : eraseA (insertA idx w.key adm.clusterQueue) w.key = idx := by
    rw [eraseA_insertA]
    exact eraseA_of_lookupA_none _ _ hidx
  have hqF : mapAt (mapAt (mapAt qs adm.clusterQueue (fun q => addWorkloadToCQ q w))
      adm.clusterQueue (fun q => cqAddFlag q w.key)) adm.clusterQueue
      (fun q => cqRemoveFlag (deleteWorkloadFromCQ q w.key) w.key) = qs := by
    rw [mapAt_mapAt, mapAt_mapAt]
    apply mapAt_id_of _ _ _ cq hcq
    simp only [cqAddFlag, addWorkloadToCQ, deleteWorkloadFromCQ, cqRemoveFlag]
    rw [lookupA_insertA_self]
    simp only
    rw [eraseA_insertA, eraseA_of_lookupA_none _ _ habs,
      removeUsage_addUsage _ _ hshape, removeS_insertS,
      removeS_of_not_mem _ _ hkn]
  rw [hforget, hqF, hidxF]

/-- C3 witness: assuming workload `d` at queue `one` (its flavors on-demand
and spot are within the used table's shape) and forgetting it restores the
two-queue fixture exactly. -/
theorem c3_forget_roundtrip_witness :
    forgetWorkload (assumeWorkload fxCache fxWlD).2 fxWlD = (none, fxCache) :=
  c3_forget_roundtrip fxCache fxWlD { clusterQueue := "one", podSetFlavors := fxFlavors } rfl
    fxStoredOne (by decide) (by decide) (by decide) (by decide) (by decide)

/-! ### Status-correctness invariant (spec P6) -/

theorem bool_eq_of_iff {a b : Bool} (h : a = true ↔ b = true) : a = b := by
  cases a <;> cases b <;> simp_all

theorem registerStep_fields (cq : ClusterQueue) (w : Workload) :
    (registerStep cq w).status = cq.status ∧
    (registerStep cq w).cohortName = cq.cohortName ∧
    (registerStep cq w).requestableResources = cq.requestableResources ∧
    (registerStep cq w).name = cq.name := by
  unfold registerStep
  match w.admission with
  | none => exact ⟨rfl, rfl, rfl, rfl⟩
  | some adm =>
    dsimp only
    by_cases hc : adm.clusterQueue = cq.name ∧ (lookupA cq.workloads w.key).isNone = true
    · rw [if_pos hc]
      exact ⟨rfl, rfl, rfl, rfl⟩
    · rw [if_neg hc]
      exact ⟨rfl, rfl, rfl, rfl⟩

theorem registerKnown_fields (known : List Workload) (cq : ClusterQueue) :
    (registerKnown cq known).status = cq.status ∧
    (registerKnown cq known).cohortName = cq.cohortName ∧
    (registerKnown cq known).requestableResources = cq.requestableResources ∧
    (registerKnown cq known).name = cq.name := by
  induction known generalizing cq with
  | nil => exact ⟨rfl, rfl, rfl, rfl⟩
  | cons w t ih =>
    have hs := registerStep_fields cq w
    have ht := ih (registerStep cq w)
    unfold registerKnown at ht ⊢
    simp only [List.foldl_cons]
    exact ⟨ht.1.trans hs.1, ht.2.1.trans hs.2.1, ht.2.2.1.trans hs.2.2.1,
      ht.2.2.2.trans hs.2.2.2⟩

theorem computeStatus_active_iff (rs : List (String × List FlavorLimits))
    (reg : List (String × ResourceFlavor)) :
    computeStatus rs reg = Status.active ↔ allFlavorsKnown rs reg = true := by
  unfold computeStatus
  by_cases h : allFlavorsKnown rs reg = true
  · simp [h]
  · simp [h]

theorem not_ref_names (rs : List (String × List FlavorLimits)) (fn : String)
    (h : referencesFlavor rs fn = false) :
    ∀ p ∈ rs, ∀ g ∈ p.2, g.name ≠ fn := by
  intro p hp g hg hgf
  have href : referencesFlavor rs fn = true := by
    simp only [referencesFlavor, List.any_eq_true, decide_eq_true_eq]
    exact ⟨p, hp, g, hg, hgf⟩
  rw [h] at href
  exact Bool.noConfusion href

theorem allFlavorsKnown_congr (rs : List (String × List FlavorLimits))
    (reg reg' : List (String × ResourceFlavor))
    (h : ∀ p ∈ rs, ∀ g ∈ p.2, lookupA reg' g.name = lookupA reg g.name) :
    allFlavorsKnown rs reg' = allFlavorsKnown rs reg := by
  apply bool_eq_of_iff
  simp only [allFlavorsKnown, List.all_eq_true]
  constructor
  · intro ha p hp g hg
    have := ha p hp g hg
    rwa [h p hp g hg] at this
  · intro ha p hp g hg
    rw [h p hp g hg]
    exact ha p hp g hg

theorem statusInv_empty : StatusInv emptyCache := by
  intro n cq hn
  simp [emptyCache, lookupA] at hn

theorem statusInv_addCQ (c : Cache) (s : CQSpec) (known : List Workload)
    (h : StatusInv c) : StatusInv (addClusterQueue c s known).2 := by
  unfold addClusterQueue
  by_cases hex : (lookupA c.clusterQueues s.name).isSome = true
  · simp only [hex, if_true]
    exact h
  · simp only [hex, if_false, Bool.false_eq_true]
    intro n cq hn
    simp only at hn
    by_cases he : n = s.name
    · subst he
      rw [lookupA_insertA_self] at hn
      injection hn with hn
      subst hn
      obtain ⟨h1, _, h3, _⟩ := registerKnown_fields known _
      rw [h1, h3]
      exact computeStatus_active_iff _ _
    · rw [lookupA_insertA_ne _ he] at hn
      exact h n cq hn

theorem statusInv_updateCQ (c : Cache) (s : CQSpec) (h : StatusInv c) :
    StatusInv (updateClusterQueue c s).2 := by
  unfold updateClusterQueue
  match hq : lookupA c.clusterQueues s.name with
  | none => exact h
  | some cq0 =>
    intro n cq hn
    simp only at hn
    by_cases he : n = s.name
    · subst he
      rw [lookupA_insertA_self] at hn
      injection hn with hn
      subst hn
      exact computeStatus_active_iff _ _
    · rw [lookupA_insertA_ne _ he] at hn
      exact h n cq hn

theorem statusInv_deleteCQ (c : Cache) (name : String) (h : StatusInv c) :
    StatusInv (deleteClusterQueue c name) := by
  unfold deleteClusterQueue
  match hq : lookupA c.clusterQueues name with
  | none => exact h
  | some cq0 =>
    intro n cq hn
    simp only at hn
    by_cases he : n = name
    · subst he
      rw [lookupA_eraseA_self] at hn
      exact Option.noConfusion hn
    · rw [lookupA_eraseA_ne _ he] at hn
      exact h n cq hn

theorem statusInv_addFlavor (c : Cache) (f : ResourceFlavor) (h : StatusInv c) :
    StatusInv (addOrUpdateResourceFlavor c f) := by
  intro n cq hn
  unfold addOrUpdateResourceFlavor at hn ⊢
  simp only at hn ⊢
  rw [lookupA_mapVal] at hn
  match hq : lookupA c.clusterQueues n with
  | none =>
    rw [hq] at hn
    exact Option.noConfusion hn
  | some cq0 =>
    rw [hq] at hn
    injection hn with hn
    subst hn
    by_cases hr : referencesFlavor cq0.requestableResources f.name = true
    · simp only [hr, if_true]
      exact computeStatus_active_iff _ _
    · simp only [hr, if_false, Bool.false_eq_true]
      have hcg : allFlavorsKnown cq0.requestableResources (insertA c.resourceFlavors f.name f) =
          allFlavorsKnown cq0.requestableResources c.resourceFlavors := by
        apply allFlavorsKnown_congr
        intro p hp g hg
        have hne := not_ref_names _ _ (by simpa using hr) p hp g hg
        exact lookupA_insertA_ne _ hne _
      rw [hcg]
      exact h n cq0 hq

theorem statusInv_deleteFlavor (c : Cache) (name : String) (h : StatusInv c) :
    StatusInv (deleteResourceFlavor c name) := by
  intro n cq hn
  unfold deleteResourceFlavor at hn ⊢
  simp only at hn ⊢
  rw [lookupA_mapVal] at hn
  match hq : lookupA c.clusterQueues n with
  | none =>
    rw [hq] at hn
    exact Option.noConfusion hn
  | some cq0 =>
    rw [hq] at hn
    injection hn with hn
    subst hn
    by_cases hr : referencesFlavor cq0.requestableResources name = true
    · simp only [hr, if_true]
      exact computeStatus_active_iff _ _
    · simp only [hr, if_false, Bool.false_eq_true]
      have hcg : allFlavorsKnown cq0.requestableResources (eraseA c.resourceFlavors name) =
          allFlavorsKnown cq0.requestableResources c.resourceFlavors := by
        apply allFlavorsKnown_congr
        intro p hp g hg
        have hne := not_ref_names _ _ (by simpa using hr) p hp g hg
        exact lookupA_eraseA_ne _ hne
      rw [hcg]
      exact h n cq0 hq

theorem statusInv_applyCOp (c : Cache) (op : COp) (h : StatusInv c) :
    StatusInv (applyCOp c op) := by
  cases op with
  | addCQ s known => exact statusInv_addCQ c s known h
  | updateCQ s => exact statusInv_updateCQ c s h
  | deleteCQ name => exact statusInv_deleteCQ c name h
  | addFlavor f => exact statusInv_addFlavor c f h
  | deleteFlavor name => exact statusInv_deleteFlavor c name h

theorem statusInv_foldl (ops : List COp) (c : Cache) (h : StatusInv c) :
    StatusInv (ops.foldl applyCOp c) := by
  induction ops generalizing c with
  | nil => exact h
  | cons op t ih => exact ih (applyCOp c op) (statusInv_applyCOp c op h)

/-- C7: after any sequence of cluster-queue and flavor-registry mutations,
every cluster-queue is Active exactly when all flavors its quota references
exist in the registry; and registering a previously missing flavor turns a
Pending queue that referenced only that missing flavor Active. -/
theorem c7_status_correctness :
    (∀ (ops : List COp) (n : String) (cq : ClusterQueue),
      lookupA (runOps ops).clusterQueues n = some cq →
      (cq.status = Status.active ↔
        allFlavorsKnown cq.requestableResources (runOps ops).resourceFlavors = true)) ∧
    (∀ (c : Cache) (f : ResourceFlavor) (n : String) (cq : ClusterQueue),
      lookupA c.clusterQueues n = some cq →
      cq.status = Status.pending →
      lookupA c.resourceFlavors f.name = none →
      referencesFlavor cq.requestableResources f.name = true →
      (∀ p ∈ cq.requestableResources, ∀ g ∈ p.2,
        g.name = f.name ∨ (lookupA c.resourceFlavors g.name).isSome = true) →
      ∃ cq', lookupA (addOrUpdateResourceFlavor c f).clusterQueues n = some cq' ∧
        cq'.status = Status.active) := by
  constructor
  · intro ops n cq hn
    exact statusInv_foldl ops emptyCache statusInv_empty n cq hn
  · intro c f n cq hn _ _ hr hall
    refine ⟨{ cq with status := computeStatus cq.requestableResources (insertA c.resourceFlavors f.name f) }, ?_, ?_⟩
    · unfold addOrUpdateResourceFlavor
      simp only
      rw [lookupA_mapVal, hn]
      simp [hr]
    · simp only
      rw [computeStatus_active_iff]
      simp only [allFlavorsKnown, List.all_eq_true]
      intro p hp g hg
      by_cases hgf : g.name = f.name
      · rw [hgf, lookupA_insertA_self]
        rfl
      · rw [lookupA_insertA_ne _ hgf]
        rcases hall p hp g hg with he | hs
        · exact absurd he hgf
        · exact hs

/-! ### Cohort-membership invariant (spec P3) -/

theorem cohortOK_congr (qs qs' : List (String × ClusterQueue))
    (cos : List (String × Cohort))
    (h : ∀ q, lookupA qs' q = lookupA qs q) (hok : CohortOK qs cos) :
    CohortOK qs' cos := by
  obtain ⟨h0, h1, h2⟩ := hok
  refine ⟨h0, ?_, ?_⟩
  · intro coN co hco q
    rw [h1 coN co hco q]
    constructor
    · rintro ⟨cq, hcq, hcn⟩
      exact ⟨cq, (h q).trans hcq, hcn⟩
    · rintro ⟨cq, hcq, hcn⟩
      exact ⟨cq, (h q).symm.trans hcq, hcn⟩
  · intro n cq hn hne
    exact h2 n cq ((h n).symm.trans hn) hne

theorem cohortOK_mapVal (qs : List (String × ClusterQueue))
    (cos : List (String × Cohort)) (g : ClusterQueue → ClusterQueue)
    (hg : ∀ x, (g x).cohortName = x.cohortName) (hok : CohortOK qs cos) :
    CohortOK (mapVal qs g) cos := by
  obtain ⟨h0, h1, h2⟩ := hok
  refine ⟨h0, ?_, ?_⟩
  · intro coN co hco q
    rw [h1 coN co hco q]
    constructor
    · rintro ⟨cq, hcq, hcn⟩
      refine ⟨g cq, ?_, ?_⟩
      · rw [lookupA_mapVal, hcq]
        rfl
      · rw [hg]
        exact hcn
    · rintro ⟨cq', hcq', hcn⟩
      rw [lookupA_mapVal] at hcq'
      match hx : lookupA qs q with
      | none =>
        rw [hx] at hcq'
        exact Option.noConfusion hcq'
      | some cq =>
        rw [hx] at hcq'
        injection hcq' with hcq'
        subst hcq'
        rw [hg] at hcn
        exact ⟨cq, rfl, hcn⟩
  · intro n cq' hn hne
    rw [lookupA_mapVal] at hn
    match hx : lookupA qs n with
    | none =>
      rw [hx] at hn
      exact Option.noConfusion hn
    | some cq =>
      rw [hx] at hn
      injection hn with hn
      subst hn
      rw [hg] at hne ⊢
      exact h2 n cq hx hne

theorem cohortOK_insert (qs : List (String × ClusterQueue))
    (cos : List (String × Cohort)) (name : String) (cq : ClusterQueue) (coname : String)
    (hok : CohortOK qs cos) (hnew : lookupA qs name = none)
    (hcn : cq.cohortName = coname) :
    CohortOK (insertA qs name cq) (joinCohortIf cos coname name) := by
  subst hcn
  obtain ⟨h0, h1, h2⟩ := hok
  have hexi : ∀ (q coN : String), q ≠ name →
      ((∃ x, lookupA (insertA qs name cq) q = some x ∧ x.cohortName = coN) ↔
       (∃ x, lookupA qs q = some x ∧ x.cohortName = coN)) := by
    intro q coN hq
    constructor
    · rintro ⟨x, hx, hxc⟩
      rw [lookupA_insertA_ne _ hq] at hx
      exact ⟨x, hx, hxc⟩
    · rintro ⟨x, hx, hxc⟩
      refine ⟨x, ?_, hxc⟩
      rw [lookupA_insertA_ne _ hq]
      exact hx
  by_cases hcne : cq.cohortName = ""
  · simp only [joinCohortIf, if_pos hcne]
    refine ⟨h0, ?_, ?_⟩
    · intro coN co hco q
      by_cases hq : q = name
      · subst hq
        constructor
        · intro hm
          obtain ⟨x, hx, _⟩ := (h1 coN co hco q).mp hm
          rw [hnew] at hx
          exact Option.noConfusion hx
        · rintro ⟨x, hx, hxc⟩
          rw [lookupA_insertA_self] at hx
          injection hx with hx
          subst hx
          rw [hcne] at hxc
          rw [← hxc, h0] at hco
          exact Option.noConfusion hco
      · rw [h1 coN co hco q]
        exact (hexi q coN hq).symm
    · intro n x hn hne
      by_cases hq : n = name
      · subst hq
        rw [lookupA_insertA_self] at hn
        injection hn with hn
        subst hn
        exact absurd hcne hne
      · rw [lookupA_insertA_ne _ hq] at hn
        exact h2 n x hn hne
  · have hne'' : ("" : String) ≠ cq.cohortName := fun he => hcne he.symm
    simp only [joinCohortIf, if_neg hcne]
    unfold joinCohort
    match hj : lookupA cos cq.cohortName with
    | some co0 =>
      refine ⟨?_, ?_, ?_⟩
      · rw [lookupA_insertA_ne _ hne'']
        exact h0
      · intro coN co hco q
        by_cases hcoN : coN = cq.cohortName
        · subst hcoN
          rw [lookupA_insertA_self] at hco
          injection hco with hco
          subst hco
          simp only [mem_insertS]
          by_cases hq : q = name
          · subst hq
            constructor
            · intro _
              exact ⟨cq, lookupA_insertA_self .., rfl⟩
            · intro _
              exact Or.inl rfl
          · constructor
            · rintro (hq' | hm)
              · exact absurd hq' hq
              · exact (hexi q _ hq).mpr ((h1 _ co0 hj q).mp hm)
            · intro hx
              exact Or.inr ((h1 _ co0 hj q).mpr ((hexi q _ hq).mp hx))
        · rw [lookupA_insertA_ne _ hcoN] at hco
          by_cases hq : q = name
          · subst hq
            constructor
            · intro hm
              obtain ⟨x, hx, _⟩ := (h1 coN co hco q).mp hm
              rw [hnew] at hx
              exact Option.noConfusion hx
            · rintro ⟨x, hx, hxc⟩
              rw [lookupA_insertA_self] at hx
              injection hx with hx
              subst hx
              exact absurd hxc.symm hcoN
          · rw [h1 coN co hco q]
            exact (hexi q coN hq).symm
      · intro n x hn hne
        by_cases hq : n = name
        · subst hq
          rw [lookupA_insertA_self] at hn
          injection hn with hn
          subst hn
          rw [lookupA_insertA_self]
          rfl
        · rw [lookupA_insertA_ne _ hq] at hn
          by_cases hxc : x.cohortName = cq.cohortName
          · rw [hxc, lookupA_insertA_self]
            rfl
          · rw [lookupA_insertA_ne _ hxc]
            exact h2 n x hn hne
    | none =>
      refine ⟨?_, ?_, ?_⟩
      · rw [lookupA_insertA_ne _ hne'']
        exact h0
      · intro coN co hco q
        by_cases hcoN : coN = cq.cohortName
        · subst hcoN
          rw [lookupA_insertA_self] at hco
          injection hco with hco
          subst hco
          simp only [List.mem_singleton]
          constructor
          · intro hm
            subst hm
            exact ⟨cq, lookupA_insertA_self .., rfl⟩
          · rintro ⟨x, hx, hxc⟩
            by_cases hq : q = name
            · exact hq
            · rw [lookupA_insertA_ne _ hq] at hx
              have hs := h2 q x hx (by rw [hxc]; exact hcne)
              rw [hxc, hj] at hs
              exact Bool.noConfusion hs
        · rw [lookupA_insertA_ne _ hcoN] at hco
          by_cases hq : q = name
          · subst hq
            constructor
            · intro hm
              obtain ⟨x, hx, _⟩ := (h1 coN co hco q).mp hm
              rw [hnew] at hx
              exact Option.noConfusion hx
            · rintro ⟨x, hx, hxc⟩
              rw [lookupA_insertA_self] at hx
              injection hx with hx
              subst hx
              exact absurd hxc.symm hcoN
          · rw [h1 coN co hco q]
            exact (hexi q coN hq).symm
      · intro n x hn hne
        by_cases hq : n = name
        · subst hq
          rw [lookupA_insertA_self] at hn
          injection hn with hn
          subst hn
          rw [lookupA_insertA_self]
          rfl
        · rw [lookupA_insertA_ne _ hq] at hn
          by_cases hxc : x.cohortName = cq.cohortName
          · rw [hxc, lookupA_insertA_self]
            rfl
          · rw [lookupA_insertA_ne _ hxc]
            exact h2 n x hn hne

theorem cohortOK_erase (qs : List (String × ClusterQueue))
    (cos : List (String × Cohort)) (name : String) (oldcq : ClusterQueue)
    (hok : CohortOK qs cos) (hold : lookupA qs name = some oldcq) :
    CohortOK (eraseA qs name) (leaveCohortIf cos oldcq.cohortName name) := by
  obtain ⟨h0, h1, h2⟩ := hok
  have hexi : ∀ (q coN : String), q ≠ name →
      ((∃ x, lookupA (eraseA qs name) q = some x ∧ x.cohortName = coN) ↔
       (∃ x, lookupA qs q = some x ∧ x.cohortName = coN)) := by
    intro q coN hq
    constructor
    · rintro ⟨x, hx, hxc⟩
      rw [lookupA_eraseA_ne _ hq] at hx
      exact ⟨x, hx, hxc⟩
    · rintro ⟨x, hx, hxc⟩
      refine ⟨x, ?_, hxc⟩
      rw [lookupA_eraseA_ne _ hq]
      exact hx
  by_cases hcne : oldcq.cohortName = ""
  · simp only [leaveCohortIf, if_pos hcne]
    refine ⟨h0, ?_, ?_⟩
    · intro coN co hco q
      by_cases hq : q = name
      · subst hq
        constructor
        · intro hm
          obtain ⟨x, hx, hxc⟩ := (h1 coN co hco q).mp hm
          rw [hold] at hx
          injection hx with hx
          subst hx
          rw [hcne] at hxc
          rw [← hxc, h0] at hco
          exact Option.noConfusion hco
        · rintro ⟨x, hx, _⟩
          rw [lookupA_eraseA_self] at hx
          exact Option.noConfusion hx
      · rw [h1 coN co hco q]
        exact (hexi q coN hq).symm
    · intro n x hn hne
      have hq : n ≠ name := by
        intro he
        rw [he, lookupA_eraseA_self] at hn
        exact Option.noConfusion hn
      rw [lookupA_eraseA_ne _ hq] at hn
      exact h2 n x hn hne
  · have hne'' : ("" : String) ≠ oldcq.cohortName := fun he => hcne he.symm
    simp only [leaveCohortIf, if_neg hcne]
    unfold leaveCohort
    match hj : lookupA cos oldcq.cohortName with
    | none =>
      have hs := h2 name oldcq hold hcne
      rw [hj] at hs
      exact Bool.noConfusion hs
    | some co1 =>
      dsimp only
      by_cases hrm : removeS co1.members name = []
      · rw [if_pos hrm]
        refine ⟨?_, ?_, ?_⟩
        · rw [lookupA_eraseA_ne _ hne'']
          exact h0
        · intro coN co hco q
          have hcoN : coN ≠ oldcq.cohortName := by
            intro he
            rw [he, lookupA_eraseA_self] at hco
            exact Option.noConfusion hco
          rw [lookupA_eraseA_ne _ hcoN] at hco
          by_cases hq : q = name
          · subst hq
            constructor
            · intro hm
              obtain ⟨x, hx, hxc⟩ := (h1 coN co hco q).mp hm
              rw [hold] at hx
              injection hx with hx
              subst hx
              exact absurd hxc.symm hcoN
            · rintro ⟨x, hx, _⟩
              rw [lookupA_eraseA_self] at hx
              exact Option.noConfusion hx
          · rw [h1 coN co hco q]
            exact (hexi q coN hq).symm
        · intro n x hn hne
          have hq : n ≠ name := by
            intro he
            rw [he, lookupA_eraseA_self] at hn
            exact Option.noConfusion hn
          rw [lookupA_eraseA_ne _ hq] at hn
          by_cases hxc : x.cohortName = oldcq.cohortName
          · exfalso
            have hm : n ∈ co1.members := (h1 _ co1 hj n).mpr ⟨x, hn, hxc⟩
            exact hq (eq_of_mem_of_removeS_nil _ _ hrm n hm)
          · rw [lookupA_eraseA_ne _ hxc]
            exact h2 n x hn hne
      · rw [if_neg hrm]
        refine ⟨?_, ?_, ?_⟩
        · rw [lookupA_insertA_ne _ hne'']
          exact h0
        · intro coN co hco q
          by_cases hcoN : coN = oldcq.cohortName
          · subst hcoN
            rw [lookupA_insertA_self] at hco
            injection hco with hco
            subst hco
            simp only [mem_removeS]
            by_cases hq : q = name
            · subst hq
              constructor
              · rintro ⟨_, hne'⟩
                exact absurd rfl hne'
              · rintro ⟨x, hx, _⟩
                rw [lookupA_eraseA_self] at hx
                exact Option.noConfusion hx
            · constructor
              · rintro ⟨hm, _⟩
                exact (hexi q _ hq).mpr ((h1 _ co1 hj q).mp hm)
              · intro hx
                exact ⟨(h1 _ co1 hj q).mpr ((hexi q _ hq).mp hx), hq⟩
          · rw [lookupA_insertA_ne _ hcoN] at hco
            by_cases hq : q = name
            · subst hq
              constructor
              · intro hm
                obtain ⟨x, hx, hxc⟩ := (h1 coN co hco q).mp hm
                rw [hold] at hx
                injection hx with hx
                subst hx
                exact absurd hxc.symm hcoN
              · rintro ⟨x, hx, _⟩
                rw [lookupA_eraseA_self] at hx
                exact Option.noConfusion hx
            · rw [h1 coN co hco q]
              exact (hexi q coN hq).symm
        · intro n x hn hne
          have hq : n ≠ name := by
            intro he
            rw [he, lookupA_eraseA_self] at hn
            exact Option.noConfusion hn
          rw [lookupA_eraseA_ne _ hq] at hn
          by_cases hxc : x.cohortName = oldcq.cohortName
          · rw [hxc, lookupA_insertA_self]
            rfl
          · rw [lookupA_insertA_ne _ hxc]
            exact h2 n x hn hne

theorem cohortInv_empty : CohortInv emptyCache := by
  refine ⟨rfl, ?_, ?_⟩
  · intro coN co hco
    simp [emptyCache, lookupA] at hco
  · intro n cq hn
    simp [emptyCache, lookupA] at hn

theorem cohortInv_addCQ (c : Cache) (s : CQSpec) (known : List Workload)
    (h : CohortInv c) : CohortInv (addClusterQueue c s known).2 := by
  unfold CohortInv at h ⊢
  unfold addClusterQueue
  by_cases hex : (lookupA c.clusterQueues s.name).isSome = true
  · simp only [hex, if_true]
    exact h
  · have hnew : lookupA c.clusterQueues s.name = none := by
      cases hl : lookupA c.clusterQueues s.name
      · rfl
      · rw [hl] at hex
        exact absurd rfl hex
    simp only [hex, if_false, Bool.false_eq_true]
    exact cohortOK_insert _ _ _ _ _ h hnew ((registerKnown_fields known _).2.1)

theorem cohortInv_updateCQ (c : Cache) (s : CQSpec) (h : CohortInv c) :
    CohortInv (updateClusterQueue c s).2 := by
  unfold CohortInv at h ⊢
  unfold updateClusterQueue
  match hq : lookupA c.clusterQueues s.name with
  | none => exact h
  | some cq0 =>
    dsimp only
    by_cases heq : cq0.cohortName = s.cohortName
    · rw [if_pos heq]
      obtain ⟨h0, h1, h2⟩ := h
      refine ⟨h0, ?_, ?_⟩
      · intro coN co hco q
        rw [h1 coN co hco q]
        by_cases hqn : q = s.name
        · subst hqn
          constructor
          · rintro ⟨x, hx, hxc⟩
            rw [hq] at hx
            injection hx with hx
            subst hx
            refine ⟨_, lookupA_insertA_self .., ?_⟩
            show s.cohortName = coN
            rw [← heq]
            exact hxc
          · rintro ⟨x, hx, hxc⟩
            rw [lookupA_insertA_self] at hx
            injection hx with hx
            subst hx
            exact ⟨cq0, hq, heq.trans hxc⟩
        · constructor
          · rintro ⟨x, hx, hxc⟩
            refine ⟨x, ?_, hxc⟩
            rw [lookupA_insertA_ne _ hqn]
            exact hx
          · rintro ⟨x, hx, hxc⟩
            rw [lookupA_insertA_ne _ hqn] at hx
            exact ⟨x, hx, hxc⟩
      · intro n x hn hne
        by_cases hqn : n = s.name
        · subst hqn
          rw [lookupA_insertA_self] at hn
          injection hn with hn
          subst hn
          have hs := h2 s.name cq0 hq (by rw [heq]; exact hne)
          rw [heq] at hs
          exact hs
        · rw [lookupA_insertA_ne _ hqn] at hn
          exact h2 n x hn hne
    · rw [if_neg heq]
      have hstep := cohortOK_insert (eraseA c.clusterQueues s.name) (leaveCohortIf c.cohorts cq0.cohortName s.name) s.name { cq0 with cohortName := s.cohortName, requestableResources := buildResources s.resources, usedResources := rebuildUsed cq0.usedResources (buildResources s.resources), status := computeStatus (buildResources s.resources) c.resourceFlavors } s.cohortName (cohortOK_erase _ _ _ _ h hq) (lookupA_eraseA_self _ _) rfl
      refine cohortOK_congr _ _ _ ?_ hstep
      intro q
      by_cases hqn : q = s.name
      · rw [hqn, lookupA_insertA_self, lookupA_insertA_self]
      · rw [lookupA_insertA_ne _ hqn, lookupA_insertA_ne _ hqn, lookupA_eraseA_ne _ hqn]

theorem cohortInv_deleteCQ (c : Cache) (name : String) (h : CohortInv c) :
    CohortInv (deleteClusterQueue c name) := by
  unfold CohortInv at h ⊢
  unfold deleteClusterQueue
  match hq : lookupA c.clusterQueues name with
  | none => exact h
  | some cq0 => exact cohortOK_erase _ _ name cq0 h hq

theorem cohortInv_addFlavor (c : Cache) (f : ResourceFlavor) (h : CohortInv c) :
    CohortInv (addOrUpdateResourceFlavor c f) := by
  unfold CohortInv at h ⊢
  unfold addOrUpdateResourceFlavor
  dsimp only
  refine cohortOK_mapVal _ _ _ ?_ h
  intro x
  by_cases hr : referencesFlavor x.requestableResources f.name = true
  · simp [hr]
  · simp [hr]

theorem cohortInv_deleteFlavor (c : Cache) (name : String) (h : CohortInv c) :
    CohortInv (deleteResourceFlavor c name) := by
  unfold CohortInv at h ⊢
  unfold deleteResourceFlavor
  dsimp only
  refine cohortOK_mapVal _ _ _ ?_ h
  intro x
  by_cases hr : referencesFlavor x.requestableResources name = true
  · simp [hr]
  · simp [hr]

theorem cohortInv_applyCOp (c : Cache) (op : COp) (h : CohortInv c) :
    CohortInv (applyCOp c op) := by
  cases op with
  | addCQ s known => exact cohortInv_addCQ c s known h
  | updateCQ s => exact cohortInv_updateCQ c s h
  | deleteCQ name => exact cohortInv_deleteCQ c name h
  | addFlavor f => exact cohortInv_addFlavor c f h
  | deleteFlavor name => exact cohortInv_deleteFlavor c name h

theorem cohortInv_foldl (ops : List COp) (c : Cache) (h : CohortInv c) :
    CohortInv (ops.foldl applyCOp c) := by
  induction ops generalizing c with
  | nil => exact h
  | cons op t ih => exact ih (applyCOp c op) (cohortInv_applyCOp c op h)

theorem joinCohort_mem (cos : List (String × Cohort)) (c2 name : String) :
    ∃ co', lookupA (joinCohort cos c2 name) c2 = some co' ∧ name ∈ co'.members := by
  unfold joinCohort
  match lookupA cos c2 with
  | some co =>
    refine ⟨_, lookupA_insertA_self .., ?_⟩
    simp
  | none =>
    refine ⟨_, lookupA_insertA_self .., ?_⟩
    simp

theorem joinCohort_lookup_ne (cos : List (String × Cohort)) (c2 name c1 : String)
    (h : c1 ≠ c2) : lookupA (joinCohort cos c2 name) c1 = lookupA cos c1 := by
  unfold joinCohort
  match lookupA cos c2 with
  | some co => exact lookupA_insertA_ne _ h _
  | none => exact lookupA_insertA_ne _ h _

theorem leaveCohort_not_mem (cos : List (String × Cohort)) (c1 name : String) :
    ∀ co', lookupA (leaveCohort cos c1 name) c1 = some co' → name ∉ co'.members := by
  unfold leaveCohort
  match hj : lookupA cos c1 with
  | none =>
    intro co' hco'
    rw [hj] at hco'
    exact Option.noConfusion hco'
  | some co1 =>
    dsimp only
    by_cases hrm : removeS co1.members name = []
    · rw [if_pos hrm]
      intro co' hco'
      rw [lookupA_eraseA_self] at hco'
      exact Option.noConfusion hco'
    · rw [if_neg hrm]
      intro co' hco'
      rw [lookupA_insertA_self] at hco'
      injection hco' with hco'
      subst hco'
      simp only [mem_removeS]
      rintro ⟨_, hne'⟩
      exact hne' rfl

/-- C8: after any sequence of mutations, a present cluster-queue is a member
of a present cohort exactly when its cohort-name equals that cohort's name;
and moving a queue to a different nonempty cohort through
`UpdateClusterQueue` removes it from the old cohort's member set (when that
cohort survives) and adds it to the new one. -/
theorem c8_cohort_membership :
    (∀ (ops : List COp) (coN : String) (co : Cohort) (n : String) (cq : ClusterQueue),
      lookupA (runOps ops).cohorts coN = some co →
      lookupA (runOps ops).clusterQueues n = some cq →
      (n ∈ co.members ↔ cq.cohortName = coN)) ∧
    (∀ (c : Cache) (s : CQSpec) (cq : ClusterQueue),
      lookupA c.clusterQueues s.name = some cq →
      cq.cohortName ≠ s.cohortName →
      cq.cohortName ≠ "" →
      s.cohortName ≠ "" →
      (∀ co', lookupA (updateClusterQueue c s).2.cohorts cq.cohortName = some co' →
        s.name ∉ co'.members) ∧
      (∃ co', lookupA (updateClusterQueue c s).2.cohorts s.cohortName = some co' ∧
        s.name ∈ co'.members)) := by
  constructor
  · intro ops coN co n cq hco hn
    obtain ⟨_, h1, _⟩ := cohortInv_foldl ops emptyCache cohortInv_empty
    rw [h1 coN co hco n]
    constructor
    · rintro ⟨x, hx, hxc⟩
      have hx' : lookupA (runOps ops).clusterQueues n = some x := hx
      rw [hn] at hx'
      injection hx' with hx'
      subst hx'
      exact hxc
    · intro hc
      exact ⟨cq, hn, hc⟩
  · intro c s cq hq hne h1ne h2ne
    have hred : (updateClusterQueue c s).2.cohorts =
        joinCohort (leaveCohort c.cohorts cq.cohortName s.name) s.cohortName s.name := by
      unfold updateClusterQueue
      simp only [hq]
      rw [if_neg hne]
      simp only [joinCohortIf, leaveCohortIf, if_neg h2ne, if_neg h1ne]
    rw [hred]
    constructor
    · intro co' hco'
      rw [joinCohort_lookup_ne _ _ _ _ hne] at hco'
      exact leaveCohort_not_mem c.cohorts cq.cohortName s.name co' hco'
    · exact joinCohort_mem _ _ _

/-- Declared spec of the C8 witness queue `a`, founding cohort `one`. -/
def c8spec : CQSpec := { name := "a", cohortName := "one", resources := [] }

/-- The C8 witness cache: queue `a` alone, in cohort `one`. -/
def c8cache : Cache := (addClusterQueue emptyCache c8spec []).2

/-- The spec moving queue `a` to cohort `two`. -/
def c8specMove : CQSpec := { name := "a", cohortName := "two", resources := [] }

/-- Queue `a` as stored in `c8cache`. -/
def c8storedA : ClusterQueue :=
  { name := "a", cohortName := "one", requestableResources := [], usedResources := [],
    workloads := [], assumedWorkloads := [], status := Status.active }

/-- C8 witness: after founding cohort `one` with queue `a`, membership matches
the declared cohort-name, and moving `a` to cohort `two` removes it from
`one`'s member set and adds it to `two`'s. -/
theorem c8_cohort_membership_witness :
    ("a" ∈ (Cohort.mk "one" ["a"]).members ↔ c8storedA.cohortName = "one") ∧
    (∀ co', lookupA (updateClusterQueue c8cache c8specMove).2.cohorts "one" = some co' →
      "a" ∉ co'.members) ∧
    (∃ co', lookupA (updateClusterQueue c8cache c8specMove).2.cohorts "two" = some co' ∧
      "a" ∈ co'.members) :=
  ⟨c8_cohort_membership.1 [COp.addCQ c8spec []] "one" (Cohort.mk "one" ["a"]) "a" c8storedA
      (by decide) (by decide),
   (c8_cohort_membership.2 c8cache c8specMove c8storedA
      (by decide) (by decide) (by decide) (by decide)).1,
   (c8_cohort_membership.2 c8cache c8specMove c8storedA
      (by decide) (by decide) (by decide) (by decide)).2⟩

/-- Declared spec of the C7 witness queue `e`, referencing the initially
unregistered flavor `nf`. -/
def c7spec : CQSpec :=
  { name := "e", cohortName := "", resources := [("cpu", [⟨"nf", ⟨1, false⟩, none⟩])] }

/-- The C7 witness cache: queue `e` alone, its flavor unregistered. -/
def c7cache : Cache := (addClusterQueue emptyCache c7spec []).2

/-- Queue `e` as stored in `c7cache`: pending, min normalised to 1000. -/
def c7storedE : ClusterQueue :=
  { name := "e", cohortName := "",
    requestableResources := [("cpu", [⟨"nf", 1000, none⟩])],
    usedResources := [("cpu", [("nf", 0)])],
    workloads := [], assumedWorkloads := [], status := Status.pending }

/-- C7 witness: queue `e` of the one-op sequence is Pending exactly because
its flavor is unknown, and adding flavor `nf` turns it Active. -/
theorem c7_status_correctness_witness :
    (c7storedE.status = Status.active ↔
      allFlavorsKnown c7storedE.requestableResources
        (runOps [COp.addCQ c7spec []]).resourceFlavors = true) ∧
    (∃ cq', lookupA (addOrUpdateResourceFlavor c7cache
        { name := "nf", labels := [] }).clusterQueues "e" = some cq' ∧
      cq'.status = Status.active) :=
  ⟨c7_status_correctness.1 [COp.addCQ c7spec []] "e" c7storedE (by decide),
   c7_status_correctness.2 c7cache { name := "nf", labels := [] } "e" c7storedE
     (by decide) (by decide) (by decide) (by decide) (by decide)⟩

end KueueCache
